import Mathlib

/-!
# ycnews: the record locator, the fetch/cache client and the two printers

A shallow embedding of `src/main.go`.

* A Go `string` is modelled as its sequence of characters, `List Char`.  The
  only bytes the program inspects (`[`, `]`, sign and decimal digits) are
  ASCII, so cutting at bytes and cutting at characters agree.
* A Go `int` is an `Int` together with the range predicate `IsGoInt`
  (64-bit platform) wherever the range matters.
* Standard output is the list of the chunks written, one per call of
  `fmt.Printf` / `doc.ToText`, in the order of the calls.
* The file system and the network are an explicit `World` that `fetch`
  reads and updates.
-/

namespace Ycnews

/-- A Go string. -/
abbrev GoString := List Char

deriving instance DecidableEq for Except

/-! ## Library functions used by `getItem` and the printers -/

/-- Pieces of `strings.SplitAfter(s, string(c))` for a one-byte separator:
the input is cut after every occurrence of `c`; the last piece is what
follows the last occurrence (the whole input when there is none). -/
def splitAfter (c : Char) : GoString → List GoString
  | [] => [[]]
  | x :: xs =>
    if x = c then [x] :: splitAfter c xs
    else
      match splitAfter c xs with
      | [] => [[x]]
      | p :: ps => (x :: p) :: ps

/-- Function `strings.Trim(s, string(c))` for a one-byte cutset: every leading
and every trailing `c` is removed. -/
def trim (c : Char) (s : GoString) : GoString :=
  (s.rdropWhile (fun x => x == c)).dropWhile (fun x => x == c)

/-- Function `strings.TrimSuffix(s, string(c))`: one trailing `c`, when
present, is removed. -/
def trimSuffix (c : Char) (s : GoString) : GoString :=
  if s.getLast? = some c then s.dropLast else s

/-- An ASCII decimal digit. -/
def isDigit (c : Char) : Bool := decide ('0' ≤ c) && decide (c ≤ '9')

/-- The value of a run of decimal digits read left to right (the loop
`n = n*10 + int(ch - '0')` of `strconv`), `none` at the first byte that is
not a digit. -/
def digitsVal (acc : Nat) : GoString → Option Nat
  | [] => some acc
  | ch :: rest =>
    if isDigit ch then digitsVal (acc * 10 + (ch.toNat - 48)) rest else none

/-- The range of a Go `int` on a 64-bit platform. -/
def IsGoInt (n : Int) : Prop := -(2 : Int) ^ 63 ≤ n ∧ n < (2 : Int) ^ 63

instance (n : Int) : Decidable (IsGoInt n) := by
  unfold IsGoInt; exact inferInstance

/-- Function `strconv.Atoi`: an optional sign `+` or `-`, then at least one
decimal digit and nothing else; the value has to fit a Go `int`.  `none` is
any error (`ErrSyntax` or `ErrRange`). -/
def atoi (s : GoString) : Option Int :=
  let neg := s.head? = some '-'
  let ds := if s.head? = some '-' ∨ s.head? = some '+' then s.tail else s
  if ds = [] then none
  else
    match digitsVal 0 ds with
    | none => none
    | some v =>
      let n : Int := if neg then -(v : Int) else (v : Int)
      if IsGoInt n then some n else none

/-- The character of a decimal digit. -/
def digitChar (d : Nat) : Char :=
  match d with
  | 0 => '0' | 1 => '1' | 2 => '2' | 3 => '3' | 4 => '4'
  | 5 => '5' | 6 => '6' | 7 => '7' | 8 => '8' | _ => '9'

/-- The digit loop of `fmt` (`for u >= 10 { buf[i] = '0' + u%10; u /= 10 }`),
writing in front of `acc`; `fuel` bounds the number of rounds. -/
def natDigitsAux : Nat → Nat → GoString → GoString
  | 0, _, acc => acc
  | fuel + 1, u, acc =>
    if u < 10 then digitChar u :: acc
    else natDigitsAux fuel (u / 10) (digitChar (u % 10) :: acc)

/-- Decimal digits of a natural number. -/
def natDigits (u : Nat) : GoString := natDigitsAux (u + 1) u []

/-- Verb `%d` of `fmt`: a minus sign for a negative value, then the digits. -/
def fmtD (n : Int) : GoString :=
  if n < 0 then '-' :: natDigits n.natAbs else natDigits n.natAbs

/-- Verb `%4d` of `fmt`: `%d` padded with blanks on the left to width 4. -/
def fmtD4 (n : Int) : GoString :=
  List.replicate (4 - (fmtD n).length) ' ' ++ fmtD n

/-- Function `appendInt` of package `time`: a minus sign for a negative value,
then the digits padded with zeros on the left to `width`. -/
def appendInt (x : Int) (width : Nat) : GoString :=
  (if x < 0 then ['-'] else []) ++
    List.replicate (width - (natDigits x.natAbs).length) '0' ++ natDigits x.natAbs

/-- The calendar fields of an instant in the local time zone, as
`time.Unix(t, 0)` presents them to `Format`. -/
structure Civil where
  year : Int
  month : Nat
  day : Nat
  hour : Nat
  minute : Nat
deriving DecidableEq, Repr

/-- Method `Format` with the layout `2006-01-02 15:04`. -/
def formatStamp (c : Civil) : GoString :=
  appendInt c.year 4 ++ ['-'] ++ appendInt c.month 2 ++ ['-'] ++ appendInt c.day 2 ++ [' '] ++
    appendInt c.hour 2 ++ [':'] ++ appendInt c.minute 2

/-! ## The record model -/

/-- Type `item` of `main.go`. -/
structure item where
  By : GoString
  Descendants : Int
  ID : Int
  Kids : List Int
  Score : Int
  Time : Int
  Title : GoString
  Text : GoString
  Type_ : GoString
  URL : GoString
deriving DecidableEq, Inhabited

/-- The result of `fmt.Sprintf("https://hacker-news.firebaseio.com/v0/item/%d.json", n)`. -/
def itemURL (n : Int) : GoString :=
  "https://hacker-news.firebaseio.com/v0/item/".toList ++ fmtD n ++ ".json".toList

/-! ## `getItem`: the identifier extraction -/

/-- The two ways the identifier extraction of `getItem` fails. -/
inductive TokenError where
  /-- Message `invalid item token`: fewer than two pieces. -/
  | invalidToken
  /-- Message `cannot convert item id`: `strconv.Atoi` failed. -/
  | cannotConvert
deriving DecidableEq, Repr

/-- Lines 204-212 of `getItem`: split after `[`, take the second piece, trim
`]` on both sides, `strconv.Atoi`. -/
def itemID (itemDescr : GoString) : Except TokenError Int :=
  let parts := splitAfter '[' itemDescr
  if parts.length < 2 then .error .invalidToken
  else
    let sid := trim ']' (parts.getD 1 [])
    match atoi sid with
    | none => .error .cannotConvert
    | some id => .ok id

/-! ## The world: cache directory and network -/

/-- What one `http.Get(u)` followed by `ioutil.ReadAll(resp.Body)` gives. -/
inductive Reply where
  /-- Function `http.Get` returned an error: no response at all. -/
  | transportErr (cause : GoString)
  /-- A response with this status code arrived, reading its body failed. -/
  | bodyErr (status : Nat) (cause : GoString)
  /-- A response with this status code arrived and its body was read. -/
  | body (status : Nat) (bytes : GoString)
deriving DecidableEq, Repr

/-- What the program is run against and does not change. -/
structure Env where
  /-- Variable `cacheDir`, set by `init`. -/
  cacheDir : GoString
  /-- Field `Path` of `url.Parse(u)`; locators are taken to be well formed. -/
  urlPath : GoString → GoString
  /-- The answer of the network to the `k`-th GET of the run, sent to `u`. -/
  net : Nat → GoString → Reply
  /-- Whether `ioutil.WriteFile` to this file name succeeds. -/
  writeOk : GoString → Bool
  /-- Function `json.Unmarshal` into an `item`. -/
  decodeItem : GoString → Except GoString item
  /-- Function `json.Unmarshal` into `stories`. -/
  decodeStories : GoString → Except GoString (List Int)
  /-- The calendar fields of `time.Unix(t, 0)` (time zone and calendar). -/
  civil : Int → Civil
  /-- The bytes lines 190-197 of `printComments` write for a comment text at
  an indent (`html.UnescapeString`, the replacements, `doc.ToText`). -/
  commentText : GoString → GoString → GoString

/-- What the program reads and changes. -/
structure World where
  /-- The outcome of `ioutil.ReadFile` by file name, `none` for any error. -/
  files : GoString → Option GoString
  /-- The number of network GETs performed so far. -/
  gets : Nat

/-- Function `strings.Replace(s, old, new, 1)` for a non-empty `old`. -/
def replaceFirst (old new : GoString) : GoString → GoString
  | [] => []
  | x :: xs =>
    if old <+: x :: xs then new ++ (x :: xs).drop old.length
    else x :: replaceFirst old new xs

/-- Function `strings.Replace(s, string(old), string(new), -1)` for one-byte
`old` and `new`. -/
def replaceAll (old new : Char) (s : GoString) : GoString :=
  s.map (fun c => if c = old then new else c)

/-- The cache file name `fetch` computes for a locator (lines 73-76). -/
def cacheName (e : Env) (u : GoString) : GoString :=
  e.cacheDir ++ replaceAll '/' '-' (replaceFirst "/v0/".toList [] (e.urlPath u))

/-- Function `fetch`.  The error is the message of the wrapped error
(`errors.Wrap(err, msg).Error()` is `msg + ": " + err.Error()`). -/
def fetch (e : Env) (w : World) (u : GoString) (cache : Bool) :
    Except GoString GoString × World :=
  let fname := cacheName e u
  match (if cache then w.files fname else none) with
  | some buf => (.ok buf, w)
  | none =>
    let w1 : World := { w with gets := w.gets + 1 }
    match e.net w.gets u with
    | .transportErr cause => (.error ("cannot get ".toList ++ u ++ ": ".toList ++ cause), w1)
    | .bodyErr _ cause =>
      (.error ("cannnot read body for ".toList ++ u ++ ": ".toList ++ cause), w1)
    | .body _ buf =>
      if cache && e.writeOk fname then
        (.ok buf, { w1 with files := fun name => if name = fname then some buf else w1.files name })
      else (.ok buf, w1)

/-- Function `unmarshal`, for a decoder `dec` standing for `json.Unmarshal`
into the type of `d`. -/
def unmarshal {α : Type} (e : Env) (dec : GoString → Except GoString α) (w : World)
    (url : GoString) (cache : Bool) : Except GoString α × World :=
  match fetch e w url cache with
  | (.error err, w1) => (.error ("cannot fetch ".toList ++ url ++ ": ".toList ++ err), w1)
  | (.ok buf, w1) =>
    match dec buf with
    | .error err =>
      (.error ("cannnot unmarshal body for ".toList ++ url ++ ": ".toList ++ err), w1)
    | .ok d => (.ok d, w1)

/-- The call `unmarshal(itemURL, &it, true)` for the record `n`. -/
def unmarshalItem (e : Env) (w : World) (n : Int) : Except GoString item × World :=
  unmarshal e e.decodeItem w (itemURL n) true

/-! ## `getItem` -/

/-- The errors of `getItem`. -/
inductive GetItemError where
  /-- The identifier extraction failed, before any fetch. -/
  | token (err : TokenError)
  /-- Message `error fetching: ...`, wrapping the error of `unmarshal`. -/
  | fetching (msg : GoString)
deriving DecidableEq, Repr

/-- Function `getItem`. -/
def getItem (e : Env) (w : World) (itemDescr : GoString) :
    Except GetItemError item × World :=
  match itemID itemDescr with
  | .error err => (.error (.token err), w)
  | .ok id =>
    match unmarshalItem e w id with
    | (.error err, w1) => (.error (.fetching ("error fetching: ".toList ++ err)), w1)
    | (.ok it, w1) => (.ok it, w1)

/-! ## `printTopStories` -/

/-- Variable `topStories`. -/
def topStories : GoString := "https://hacker-news.firebaseio.com/v0/topstories.json".toList

/-- The score column of a summary line (lines 143-148). -/
def scoreField (score : Int) : GoString :=
  if score > 1000 then "\x1b[31m".toList ++ fmtD4 score ++ "\x1b[0m".toList
  else if score > 500 then "\x1b[33m".toList ++ fmtD4 score ++ "\x1b[0m".toList
  else fmtD4 score

/-- The summary line of a story, as written by line 149, newline included. -/
def summaryLine (e : Env) (it : item) : GoString :=
  formatStamp (e.civil it.Time) ++ "  ".toList ++ scoreField it.Score ++ "  ".toList ++
    fmtD4 (it.Kids.length : Int) ++ "  ".toList ++ it.Title ++ " [".toList ++
    fmtD it.ID ++ "]\n".toList

/-- The diagnostic line of a story that could not be fetched (line 140). -/
def fetchErrorLine (n : Int) : GoString := fmtD n ++ ": error fetching\n".toList

/-- The row written for one story ID, given the outcome of its `unmarshal`. -/
def storyRow (e : Env) (n : Int) : Except GoString item → GoString
  | .error _ => fetchErrorLine n
  | .ok it => summaryLine e it

/-- The loop of `printTopStories` over the story IDs still to do: the rows
written and the world left. -/
def storiesLoop (e : Env) : List Int → World → List GoString × World
  | [], w => ([], w)
  | n :: rest, w =>
    let r := unmarshalItem e w n
    let tl := storiesLoop e rest r.2
    (storyRow e n r.1 :: tl.1, tl.2)

/-- What `printTopStories` gives: the error returned (`none` for `nil`),
the rows written and the world left. -/
structure ListingResult where
  err : Option GoString
  rows : List GoString
  world : World

/-- Function `printTopStories`. -/
def printTopStories (e : Env) (w : World) : ListingResult :=
  match unmarshal e e.decodeStories w topStories false with
  | (.error err, w1) =>
    { err := some ("error fetching topstories: ".toList ++ err), rows := [], world := w1 }
  | (.ok st, w1) =>
    let r := storiesLoop e st w1
    { err := none, rows := r.1, world := r.2 }

/-! ## `printComments` -/

/-- One chunk written by `printComments`. -/
inductive Emit where
  /-- Line 181: the title of the record, no indent argument. -/
  | header (title : GoString)
  /-- Line 187: the message of the error, no indent argument. -/
  | failure (msg : GoString)
  /-- Line 189: the bracketed author tag of a child at the indent. -/
  | author (indent who : GoString)
  /-- Line 197: the text block of a child at the indent. -/
  | body (indent text : GoString)
deriving DecidableEq, Repr

/-- The bytes of a chunk. -/
def Emit.bytes (e : Env) : Emit → GoString
  | .header title => "\x1b[33m".toList ++ title ++ "\x1b[0m\n\n".toList
  | .failure msg => msg ++ "\n".toList
  | .author indent who => indent ++ "\x1b[33m[".toList ++ who ++ "]\x1b[0m\n".toList
  | .body indent text => e.commentText text indent

/-- The indent argument a chunk was written with (empty where the format has
none). -/
def Emit.indent : Emit → GoString
  | .header _ => []
  | .failure _ => []
  | .author indent _ => indent
  | .body indent _ => indent

/-- The author of an author tag. -/
def Emit.tagged : Emit → Option GoString
  | .author _ who => some who
  | _ => none

/-- The indent of an author tag. -/
def Emit.tagIndent : Emit → Option GoString
  | .author indent _ => some indent
  | _ => none

/-- The loop of `printComments` over the kids still to do; `self` is the
recursive call of line 198. -/
def kidsLoop (e : Env) (self : World → item → GoString → Option (List Emit × World))
    (indent : GoString) : List Int → World → Option (List Emit × World)
  | [], w => some ([], w)
  | n :: rest, w =>
    match unmarshalItem e w n with
    | (.error err, w1) =>
      match kidsLoop e self indent rest w1 with
      | none => none
      | some (o, w2) => some (.failure err :: o, w2)
    | (.ok cit, w1) =>
      match self w1 cit (indent ++ ['\t']) with
      | none => none
      | some (o1, w2) =>
        match kidsLoop e self indent rest w2 with
        | none => none
        | some (o2, w3) => some (.author indent cit.By :: .body indent cit.Text :: (o1 ++ o2), w3)

/-- Function `printComments`; `fuel` bounds the depth of the recursion, and
`none` is a run that needs more. -/
def printComments (e : Env) : Nat → World → item → GoString → Option (List Emit × World)
  | 0, _, _, _ => none
  | fuel + 1, w, it, indent =>
    match kidsLoop e (fun w1 cit ind => printComments e fuel w1 cit ind) indent it.Kids w with
    | none => none
    | some (o, w1) => some (.header it.Title :: o, w1)

/-! ## A small concrete world, for evaluating the program -/

/-- A story with title `Foo`, ID 12345 and the given score. -/
def fooStory (score : Int) : item :=
  { By := "pg".toList, Descendants := 0, ID := 12345, Kids := [], Score := score,
    Time := 0, Title := "Foo".toList, Text := [], Type_ := "story".toList, URL := [] }

/-- A comment by `who` with the given ID and kids. -/
def reply (n : Int) (who : GoString) (kids : List Int) : item :=
  { By := who, Descendants := 0, ID := n, Kids := kids, Score := 0,
    Time := 0, Title := [], Text := "hi".toList, Type_ := "comment".toList, URL := [] }

/-- The story of `demoNet`: ID 1, score 7, kids 2, 3 and 4. -/
def demoStory : item := { fooStory 7 with ID := 1, Kids := [2, 3, 4] }

/-- A store of records: story 1 with kids 2, 3 and 4; comment 2 with kid 5;
comment 4 with kids 6 and 7; comment 6 with kid 8; comments 7 and 8 without
kids; 3 is missing (status 404) and 5 cannot be reached.  The body of a
record is the decimal text of its ID. -/
def demoNet (u : GoString) : Reply :=
  if u = itemURL 1 then .body 200 "1".toList
  else if u = itemURL 2 then .body 200 "2".toList
  else if u = itemURL 4 then .body 200 "4".toList
  else if u = itemURL 6 then .body 200 "6".toList
  else if u = itemURL 7 then .body 200 "7".toList
  else if u = itemURL 8 then .body 200 "8".toList
  else if u = itemURL 3 then .body 404 "Not Found".toList
  else if u = topStories then .body 200 "[1,3]".toList
  else .transportErr "timeout".toList

/-- The decoder that goes with `demoNet`. -/
def demoDecode (buf : GoString) : Except GoString item :=
  if buf = "1".toList then .ok demoStory
  else if buf = "2".toList then .ok (reply 2 "ann".toList [5])
  else if buf = "4".toList then .ok (reply 4 "bob".toList [6, 7])
  else if buf = "6".toList then .ok (reply 6 "cy".toList [8])
  else if buf = "7".toList then .ok (reply 7 "dan".toList [])
  else if buf = "8".toList then .ok (reply 8 "eve".toList [])
  else .error "invalid character".toList

/-- An environment with a stationary network (`demoNet` whatever the number
of the GET), a cache directory that cannot be written, and midnight of
1 January 1970 for every instant. -/
def demoEnv : Env :=
  { cacheDir := "/home/u/.cache/ycnews/".toList
    urlPath := fun u => u.drop 34
    net := fun _ u => demoNet u
    writeOk := fun _ => false
    decodeItem := demoDecode
    decodeStories := fun buf =>
      if buf = "[1,3]".toList then .ok [1, 3] else .error "invalid character".toList
    civil := fun _ => { year := 1970, month := 1, day := 1, hour := 0, minute := 0 }
    commentText := fun text indent => indent ++ text ++ ['\n'] }

/-- The same environment with a cache directory that can be written. -/
def demoEnvCached : Env := { demoEnv with writeOk := fun _ => true }

/-- A world with an empty cache directory and no GET performed. -/
def emptyWorld : World := { files := fun _ => none, gets := 0 }

/-! ## Threads: the finite trees `printComments` is specified against -/

/-- What the store presents below a record: a child whose fetch or decode
fails with a message, or a child record with its own children, in the order
of `Kids`. -/
inductive Thread where
  | missing (msg : GoString)
  | node (it : item) (kids : List Thread)

mutual
/-- The thread `t` is what the outcomes `f` of `unmarshal` present for the
child ID `n`. -/
def Thread.Shows (f : Int → Except GoString item) : Thread → Int → Prop
  | .missing msg, n => f n = .error msg
  | .node it kids, n => f n = .ok it ∧ Thread.ShowsAll f kids it.Kids
/-- The threads are what the outcomes `f` present for the IDs, one by one. -/
def Thread.ShowsAll (f : Int → Except GoString item) : List Thread → List Int → Prop
  | [], [] => True
  | t :: ts, n :: ns => Thread.Shows f t n ∧ Thread.ShowsAll f ts ns
  | [], _ :: _ => False
  | _ :: _, [] => False
end

mutual
/-- The number of levels of a thread. -/
def Thread.height : Thread → Nat
  | .missing _ => 0
  | .node _ kids => Thread.heightAll kids + 1
/-- The largest height among the threads. -/
def Thread.heightAll : List Thread → Nat
  | [] => 0
  | t :: ts => max (Thread.height t) (Thread.heightAll ts)
end

mutual
/-- Every fetch in the thread succeeds. -/
def Thread.complete : Thread → Bool
  | .missing _ => false
  | .node _ kids => Thread.completeAll kids
/-- Every fetch in the threads succeeds. -/
def Thread.completeAll : List Thread → Bool
  | [] => true
  | t :: ts => Thread.complete t && Thread.completeAll ts
end

mutual
/-- The number of parent-to-child edges of a thread, the edge that leads to
it included. -/
def Thread.edges : Thread → Nat
  | .missing _ => 1
  | .node _ kids => Thread.edgesAll kids + 1
/-- The number of edges of the threads. -/
def Thread.edgesAll : List Thread → Nat
  | [] => 0
  | t :: ts => Thread.edges t + Thread.edgesAll ts
end

mutual
/-- Depth-first pre-order of the records of a thread whose root is at depth
`d`, children in the order of `Kids`: each record with its depth. -/
def Thread.walk (d : Nat) : Thread → List (Nat × item)
  | .missing _ => []
  | .node it kids => (d, it) :: Thread.walkAll (d + 1) kids
/-- Depth-first pre-order of the threads, left to right. -/
def Thread.walkAll (d : Nat) : List Thread → List (Nat × item)
  | [] => []
  | t :: ts => Thread.walk d t ++ Thread.walkAll d ts
end

mutual
/-- The chunks to be written for a thread at an indent: the error line of a
missing child, or the author tag and text of the child followed by its own
header and the chunks of its children one tab deeper. -/
def Thread.emits (indent : GoString) : Thread → List Emit
  | .missing msg => [.failure msg]
  | .node it kids =>
    .author indent it.By :: .body indent it.Text :: .header it.Title ::
      Thread.emitsAll (indent ++ ['\t']) kids
/-- The chunks to be written for the threads at an indent. -/
def Thread.emitsAll (indent : GoString) : List Thread → List Emit
  | [] => []
  | t :: ts => Thread.emits indent t ++ Thread.emitsAll indent ts
end

/-- The outcomes of `unmarshal` for the item locators are settled on the
worlds of `Inv`: a call leaves the world in `Inv` and gives the outcome
`f n`, whatever that world. -/
structure Settled (e : Env) (Inv : World → Prop) (f : Int → Except GoString item) : Prop where
  keeps : ∀ w n, Inv w → Inv (unmarshalItem e w n).2
  gives : ∀ w n, Inv w → (unmarshalItem e w n).1 = f n

/-- The loop of `printComments` over settled outcomes: the chunks only. -/
def renderKids (f : Int → Except GoString item) (self : item → GoString → Option (List Emit))
    (indent : GoString) : List Int → Option (List Emit)
  | [] => some []
  | n :: rest =>
    match f n with
    | .error err =>
      match renderKids f self indent rest with
      | none => none
      | some o => some (.failure err :: o)
    | .ok cit =>
      match self cit (indent ++ ['\t']) with
      | none => none
      | some o1 =>
        match renderKids f self indent rest with
        | none => none
        | some o2 => some (.author indent cit.By :: .body indent cit.Text :: (o1 ++ o2))

/-- Function `printComments` over settled outcomes: the chunks only. -/
def render (f : Int → Except GoString item) : Nat → item → GoString → Option (List Emit)
  | 0, _, _ => none
  | fuel + 1, it, indent =>
    match renderKids f (fun cit ind => render f fuel cit ind) indent it.Kids with
    | none => none
    | some o => some (.header it.Title :: o)

/-- A run `r` of the program writes the chunks `p` and ends in `Inv`, or
both need more fuel. -/
def Agrees (Inv : World → Prop) (r : Option (List Emit × World)) (p : Option (List Emit)) :
    Prop :=
  match p with
  | none => r = none
  | some o => ∃ w, Inv w ∧ r = some (o, w)

/-- The outcomes of `unmarshal` in the environment `demoEnv`, whose network
is stationary and whose cache stays empty. -/
def demoOutcome (n : Int) : Except GoString item := (unmarshalItem demoEnv emptyWorld n).1

/-- The threads below comment 4: comment 6 with its kid 8, then comment 7. -/
def bobThreads : List Thread :=
  [.node (reply 6 "cy".toList [8]) [.node (reply 8 "eve".toList []) []],
    .node (reply 7 "dan".toList []) []]

/-- The message of the failed fetch of record 5. -/
def unreachable5 : GoString :=
  "cannot fetch ".toList ++ itemURL 5 ++ ": cannot get ".toList ++ itemURL 5 ++
    ": timeout".toList

/-- The message of the failed decode of record 3. -/
def undecodable3 : GoString :=
  "cannnot unmarshal body for ".toList ++ itemURL 3 ++ ": invalid character".toList

/-- The threads below `demoStory`: comment 2 with its unreachable kid 5, the
missing record 3, comment 4 with the threads below it. -/
def demoThreads : List Thread :=
  [.node (reply 2 "ann".toList [5]) [.missing unreachable5],
    .missing undecodable3,
    .node (reply 4 "bob".toList [6, 7]) bobThreads]

/-- The chunk is an error line. -/
def Emit.isFailure : Emit → Bool
  | .failure _ => true
  | _ => false

/-- The chunks of one record met at depth `r.1` in a rendering whose first
level, depth `d0`, is written at `indent`: the author tag and the text block
at `indent` followed by `r.1 - d0` tabs, then the header of the record, which
has no indent argument. -/
def recordChunks (indent : GoString) (d0 : Nat) (r : Nat × item) : List Emit :=
  [.author (indent ++ List.replicate (r.1 - d0) '\t') r.2.By,
    .body (indent ++ List.replicate (r.1 - d0) '\t') r.2.Text,
    .header r.2.Title]

/-- The thread below `demoStory` that starts at comment 2. -/
def annThreads : List Thread := [.node (reply 2 "ann".toList [5]) [.missing unreachable5]]

/-- The thread below `demoStory` that starts at comment 4. -/
def bobTop : List Thread := [.node (reply 4 "bob".toList [6, 7]) bobThreads]

/-- The worlds whose cache directory is empty. -/
def EmptyCache (w : World) : Prop := ∀ name, w.files name = none

/-- The chunks `printComments` writes after the header for the record `it`
with its `Kids` replaced by `kids`; `none` is a run that needs more fuel. -/
def kidsChunks (e : Env) (fuel : Nat) (w : World) (it : item) (indent : GoString)
    (kids : List Int) : Option (List Emit) :=
  (printComments e fuel w { it with Kids := kids } indent).map (fun r => r.1.tail)

/-! ## Definitions that follow the wording of the specification -/

/-- The remainder of a line after its first `c`; `none` when the line has no
`c` ("split `line` on the first occurrence"). -/
def afterFirst (c : Char) : GoString → Option GoString
  | [] => none
  | x :: xs => if x = c then some xs else afterFirst c xs

/-- The record locator as the specification words it, with every leading and
trailing `]` removed from the whole remainder. -/
def locateBySplitOnce (line : GoString) : Except TokenError Int :=
  match afterFirst '[' line with
  | none => .error .invalidToken
  | some rest =>
    match atoi (trim ']' rest) with
    | none => .error .cannotConvert
    | some id => .ok id

/-- The record locator as the specification words it, with "a trailing `]`"
removed from the remainder. -/
def locateByTrimSuffix (line : GoString) : Except TokenError Int :=
  match afterFirst '[' line with
  | none => .error .invalidToken
  | some rest =>
    match atoi (trimSuffix ']' rest) with
    | none => .error .cannotConvert
    | some id => .ok id

/-- The text of a summary line before its bracketed ID. -/
def summaryHead (e : Env) (it : item) : GoString :=
  formatStamp (e.civil it.Time) ++ "  ".toList ++ scoreField it.Score ++ "  ".toList ++
    fmtD4 (it.Kids.length : Int) ++ "  ".toList ++ it.Title ++ [' ']

/-! ## Facts about the library functions -/

theorem isDigit_digitChar (d : Nat) (h : d < 10) : isDigit (digitChar d) = true := by
  interval_cases d <;> decide

theorem toNat_digitChar (d : Nat) (h : d < 10) : (digitChar d).toNat - 48 = d := by
  interval_cases d <;> decide

theorem natDigitsAux_eq (u : Nat) :
    ∀ fuel acc, u < fuel → natDigitsAux fuel u acc = natDigits u ++ acc := by
  induction u using Nat.strong_induction_on with
  | _ u ih =>
    intro fuel acc hlt
    obtain ⟨f, rfl⟩ : ∃ f, fuel = f + 1 := ⟨fuel - 1, by omega⟩
    by_cases h10 : u < 10
    · simp [natDigits, natDigitsAux, h10]
    · have hdiv : u / 10 < u := Nat.div_lt_self (by omega) (by omega)
      have e1 : natDigitsAux (f + 1) u acc
          = natDigitsAux f (u / 10) (digitChar (u % 10) :: acc) := by
        simp [natDigitsAux, h10]
      have e2 : natDigits u = natDigitsAux u (u / 10) [digitChar (u % 10)] := by
        simp [natDigits, natDigitsAux, h10]
      rw [e1, e2, ih (u / 10) hdiv f _ (by omega), ih (u / 10) hdiv u _ hdiv]
      simp

theorem natDigits_small (u : Nat) (h : u < 10) : natDigits u = [digitChar u] := by
  simp [natDigits, natDigitsAux, h]

theorem natDigits_big (u : Nat) (h : ¬ u < 10) :
    natDigits u = natDigits (u / 10) ++ [digitChar (u % 10)] := by
  have hdiv : u / 10 < u := Nat.div_lt_self (by omega) (by omega)
  have e2 : natDigits u = natDigitsAux u (u / 10) [digitChar (u % 10)] := by
    simp [natDigits, natDigitsAux, h]
  rw [e2, natDigitsAux_eq (u / 10) u _ hdiv]

theorem digitsVal_concat (xs : GoString) (c : Char) :
    ∀ acc, digitsVal acc (xs ++ [c])
      = (digitsVal acc xs).bind
          (fun v => if isDigit c then some (v * 10 + (c.toNat - 48)) else none) := by
  induction xs with
  | nil => intro acc; simp [digitsVal]
  | cons x xs ih =>
    intro acc
    by_cases hx : isDigit x = true
    · simp [digitsVal, hx, ih]
    · simp [digitsVal, hx]

theorem digitsVal_natDigits (u : Nat) : digitsVal 0 (natDigits u) = some u := by
  induction u using Nat.strong_induction_on with
  | _ u ih =>
    by_cases h10 : u < 10
    · simp [natDigits_small u h10, digitsVal, isDigit_digitChar u h10, toNat_digitChar u h10]
    · have hdiv : u / 10 < u := Nat.div_lt_self (by omega) (by omega)
      have hm : u % 10 < 10 := Nat.mod_lt _ (by omega)
      rw [natDigits_big u h10, digitsVal_concat, ih (u / 10) hdiv]
      simp [isDigit_digitChar _ hm, toNat_digitChar _ hm]
      omega

theorem natDigits_digits (u : Nat) : ∀ ch ∈ natDigits u, isDigit ch = true := by
  induction u using Nat.strong_induction_on with
  | _ u ih =>
    by_cases h10 : u < 10
    · simp [natDigits_small u h10, isDigit_digitChar u h10]
    · have hdiv : u / 10 < u := Nat.div_lt_self (by omega) (by omega)
      have hm : u % 10 < 10 := Nat.mod_lt _ (by omega)
      rw [natDigits_big u h10]
      intro ch hch
      rcases List.mem_append.mp hch with h | h
      · exact ih (u / 10) hdiv ch h
      · simp at h; subst h; exact isDigit_digitChar _ hm

theorem natDigits_ne_nil (u : Nat) : natDigits u ≠ [] := by
  by_cases h10 : u < 10
  · simp [natDigits_small u h10]
  · simp [natDigits_big u h10]

theorem isDigit_ne (ch x : Char) (hx : isDigit x = false) (h : isDigit ch = true) : ch ≠ x := by
  intro hc; subst hc; rw [hx] at h; exact Bool.noConfusion h

theorem fmtD_chars (n : Int) : ∀ ch ∈ fmtD n, ch = '-' ∨ isDigit ch = true := by
  intro ch hch
  unfold fmtD at hch
  split at hch
  · rcases List.mem_cons.mp hch with h | h
    · exact Or.inl h
    · exact Or.inr (natDigits_digits _ ch h)
  · exact Or.inr (natDigits_digits _ ch hch)

theorem fmtD_ne_nil (n : Int) : fmtD n ≠ [] := by
  unfold fmtD
  split
  · simp
  · exact natDigits_ne_nil _

/-- A character that is neither the minus sign nor a digit does not occur in
the output of `%d`. -/
theorem not_mem_fmtD (x : Char) (hm : x ≠ '-') (hx : isDigit x = false) (n : Int) :
    x ∉ fmtD n := by
  intro h
  rcases fmtD_chars n x h with h1 | h1
  · exact hm h1
  · rw [hx] at h1; exact Bool.noConfusion h1

theorem not_mem_fmtD4 (x : Char) (hs : x ≠ ' ') (hm : x ≠ '-') (hx : isDigit x = false)
    (n : Int) : x ∉ fmtD4 n := by
  intro h
  unfold fmtD4 at h
  rcases List.mem_append.mp h with h1 | h1
  · exact hs (List.eq_of_mem_replicate h1)
  · exact not_mem_fmtD x hm hx n h1

theorem digitsVal_some_digits :
    ∀ (s : GoString) (acc v : Nat), digitsVal acc s = some v → ∀ ch ∈ s, isDigit ch = true := by
  intro s
  induction s with
  | nil => intro _ _ _ ch hch; simp at hch
  | cons x xs ih =>
    intro acc v h ch hch
    by_cases hx : isDigit x = true
    · simp [digitsVal, hx] at h
      rcases List.mem_cons.mp hch with hc | hc
      · subst hc; exact hx
      · exact ih _ _ h ch hc
    · simp [digitsVal, hx] at h

/-- What `strconv.Atoi` accepts consists of sign characters and digits. -/
theorem atoi_some_chars (s : GoString) (n : Int) (h : atoi s = some n) :
    ∀ ch ∈ s, ch = '-' ∨ ch = '+' ∨ isDigit ch = true := by
  cases s with
  | nil => intro ch hch; simp at hch
  | cons x xs =>
    by_cases hsign : x = '-' ∨ x = '+'
    · have hds : (if (x :: xs).head? = some '-' ∨ (x :: xs).head? = some '+'
          then (x :: xs).tail else x :: xs) = xs := by simp [hsign]
      unfold atoi at h
      simp only [hds] at h
      split at h
      · exact Option.noConfusion h
      · split at h
        · exact Option.noConfusion h
        · rename_i v hv
          have hd := digitsVal_some_digits _ _ _ hv
          intro ch hch
          rcases List.mem_cons.mp hch with hc | hc
          · subst hc
            rcases hsign with h1 | h1
            · exact Or.inl h1
            · exact Or.inr (Or.inl h1)
          · exact Or.inr (Or.inr (hd ch hc))
    · have hds : (if (x :: xs).head? = some '-' ∨ (x :: xs).head? = some '+'
          then (x :: xs).tail else x :: xs) = x :: xs := by simp [hsign]
      unfold atoi at h
      simp only [hds] at h
      split at h
      · exact Option.noConfusion h
      · split at h
        · exact Option.noConfusion h
        · rename_i v hv
          have hd := digitsVal_some_digits _ _ _ hv
          intro ch hch
          exact Or.inr (Or.inr (hd ch hch))

theorem atoi_none_of_mem (s : GoString) (x : Char) (hm : x ≠ '-') (hp : x ≠ '+')
    (hx : isDigit x = false) (h : x ∈ s) : atoi s = none := by
  cases ha : atoi s with
  | none => rfl
  | some n =>
    rcases atoi_some_chars s n ha x h with h1 | h1 | h1
    · exact absurd h1 hm
    · exact absurd h1 hp
    · rw [hx] at h1; exact Bool.noConfusion h1

/-- Round trip between `%d` and `strconv.Atoi` on the range of a Go `int`. -/
theorem atoi_fmtD (n : Int) (hn : IsGoInt n) : atoi (fmtD n) = some n := by
  have hne := natDigits_ne_nil n.natAbs
  have hval := digitsVal_natDigits n.natAbs
  by_cases hneg : n < 0
  · have hf : fmtD n = '-' :: natDigits n.natAbs := by simp [fmtD, hneg]
    have habs : -|n| = n := by rw [abs_of_neg hneg]; omega
    rw [hf]
    simp [atoi, hne, hval, habs, hn]
  · have hf : fmtD n = natDigits n.natAbs := by simp [fmtD, hneg]
    have habs : |n| = n := abs_of_nonneg (by omega)
    rw [hf]
    obtain ⟨x, xs, hxs⟩ : ∃ x xs, natDigits n.natAbs = x :: xs := by
      cases hd : natDigits n.natAbs with
      | nil => exact absurd hd hne
      | cons x xs => exact ⟨x, xs, rfl⟩
    have hxd : isDigit x = true := natDigits_digits n.natAbs x (by rw [hxs]; simp)
    have h1 : x ≠ '-' := isDigit_ne x '-' (by decide) hxd
    have h2 : x ≠ '+' := isDigit_ne x '+' (by decide) hxd
    rw [hxs] at hval ⊢
    simp [atoi, h1, h2, hval, habs, hn]

/-! ## Facts about splitting and trimming -/

theorem splitAfter_ne_nil (c : Char) (s : GoString) : splitAfter c s ≠ [] := by
  cases s with
  | nil => simp [splitAfter]
  | cons x xs =>
    unfold splitAfter
    split
    · simp
    · split <;> simp

theorem splitAfter_cons_eq (c : Char) (xs : GoString) :
    splitAfter c (c :: xs) = [c] :: splitAfter c xs := by
  simp [splitAfter]

theorem splitAfter_cons_ne (c x : Char) (xs : GoString) (h : ¬ x = c) :
    splitAfter c (x :: xs)
      = (x :: (splitAfter c xs).headD []) :: (splitAfter c xs).tail := by
  have hne := splitAfter_ne_nil c xs
  rw [splitAfter]
  simp only [h, if_false]
  cases hs : splitAfter c xs with
  | nil => exact absurd hs hne
  | cons p ps => simp

theorem afterFirst_eq_none (c : Char) (s : GoString) : afterFirst c s = none ↔ c ∉ s := by
  induction s with
  | nil => simp [afterFirst]
  | cons x xs ih =>
    by_cases hx : x = c
    · simp [afterFirst, hx]
    · have hx' : ¬ c = x := fun h => hx h.symm
      simp [afterFirst, hx, hx', ih]

theorem afterFirst_append (c : Char) (p q : GoString) (hp : c ∉ p) :
    afterFirst c (p ++ c :: q) = some q := by
  induction p with
  | nil => simp [afterFirst]
  | cons x xs ih =>
    have hx : ¬ x = c := fun h => hp (by simp [h])
    have hxs : c ∉ xs := fun h => hp (by simp [h])
    simp [afterFirst, hx, ih hxs]

theorem afterFirst_mem (c : Char) (p q : GoString) :
    ∃ r, afterFirst c (p ++ c :: q) = some r ∧ ∀ x ∈ q, x ∈ r := by
  induction p with
  | nil => exact ⟨q, by simp [afterFirst], fun _ h => h⟩
  | cons x xs ih =>
    by_cases hx : x = c
    · refine ⟨xs ++ c :: q, by simp [afterFirst, hx], ?_⟩
      intro y hy; simp [hy]
    · obtain ⟨r, hr, hq⟩ := ih
      exact ⟨r, by simp [afterFirst, hx, hr], hq⟩

/-- With no separator in the line there is one piece. -/
theorem splitAfter_length_of_none (c : Char) (s : GoString) (h : afterFirst c s = none) :
    (splitAfter c s).length = 1 := by
  induction s with
  | nil => simp [splitAfter]
  | cons x xs ih =>
    by_cases hx : x = c
    · simp [afterFirst, hx] at h
    · simp only [afterFirst, hx, if_false] at h
      have hl := ih h
      rw [splitAfter_cons_ne c x xs hx]
      cases hs : splitAfter c xs with
      | nil => simp
      | cons p ps => rw [hs] at hl; simpa using hl

/-- With a separator in the line there are at least two pieces, and the
second one is the first piece of what follows the first separator. -/
theorem splitAfter_second (c : Char) (s r : GoString) (h : afterFirst c s = some r) :
    2 ≤ (splitAfter c s).length ∧
      (splitAfter c s).getD 1 [] = (splitAfter c r).headD [] := by
  induction s with
  | nil => simp [afterFirst] at h
  | cons x xs ih =>
    by_cases hx : x = c
    · simp only [afterFirst, hx, if_true, Option.some.injEq] at h
      subst h
      subst hx
      have hne := splitAfter_ne_nil x xs
      rw [splitAfter_cons_eq]
      cases hs : splitAfter x xs with
      | nil => exact absurd hs hne
      | cons p ps => simp
    · simp only [afterFirst, hx, if_false] at h
      obtain ⟨h1, h2⟩ := ih h
      rw [splitAfter_cons_ne c x xs hx]
      cases hs : splitAfter c xs with
      | nil => rw [hs] at h1; simp at h1
      | cons p ps =>
        rw [hs] at h1 h2
        cases ps with
        | nil => simp at h1
        | cons p2 ps2 =>
          constructor
          · simp
          · simpa using h2

theorem splitAfter_of_not_mem (c : Char) (s : GoString) (h : c ∉ s) : splitAfter c s = [s] := by
  induction s with
  | nil => simp [splitAfter]
  | cons x xs ih =>
    have hx : ¬ x = c := fun e => h (by simp [e])
    have hxs : c ∉ xs := fun e => h (by simp [e])
    rw [splitAfter_cons_ne c x xs hx, ih hxs]
    simp

/-- The first piece of a line that has a separator contains the separator. -/
theorem splitAfter_head_mem (c : Char) (s : GoString) (h : c ∈ s) :
    c ∈ (splitAfter c s).headD [] := by
  induction s with
  | nil => simp at h
  | cons x xs ih =>
    by_cases hx : x = c
    · subst hx
      rw [splitAfter_cons_eq]
      simp
    · have hxs : c ∈ xs := by
        rcases List.mem_cons.mp h with e | e
        · exact absurd e.symm hx
        · exact e
      have := ih hxs
      rw [splitAfter_cons_ne c x xs hx]
      simp only [List.headD_cons]
      exact List.mem_cons_of_mem _ this

theorem mem_dropWhile_of_ne (c x : Char) (hx : x ≠ c) :
    ∀ s : GoString, x ∈ s → x ∈ s.dropWhile (fun y => y == c) := by
  intro s
  induction s with
  | nil => intro h; simp at h
  | cons y ys ih =>
    intro h
    by_cases hy : y = c
    · subst hy
      rcases List.mem_cons.mp h with e | e
      · exact absurd e hx
      · simpa [List.dropWhile] using ih e
    · have hb : (y == c) = false := by simpa using hy
      rw [List.dropWhile_cons_of_neg (by simp [hb])]
      exact h

/-- Trimming `c` never removes another character. -/
theorem mem_trim_of_ne (c x : Char) (hx : x ≠ c) (s : GoString) (h : x ∈ s) :
    x ∈ trim c s := by
  unfold trim
  apply mem_dropWhile_of_ne c x hx
  unfold List.rdropWhile
  rw [List.mem_reverse]
  apply mem_dropWhile_of_ne c x hx
  rw [List.mem_reverse]
  exact h

/-- Trimming `c` from `s ++ [c]` gives `s` back when `c` does not occur in
`s`. -/
theorem trim_concat (c : Char) (s : GoString)
    (hends : ∀ x ∈ s, x ≠ c) : trim c (s ++ [c]) = s := by
  unfold trim
  have h1 : (s ++ [c]).rdropWhile (fun x => x == c) = s.rdropWhile (fun x => x == c) :=
    List.rdropWhile_concat_pos _ _ _ (by simp)
  have h2 : s.rdropWhile (fun x => x == c) = s := by
    rw [List.rdropWhile_eq_self_iff]
    intro hs
    have := hends _ (List.getLast_mem hs)
    simpa using this
  have h3 : s.dropWhile (fun x => x == c) = s := by
    rw [List.dropWhile_eq_self_iff]
    intro hs
    have hpos : 0 < s.length := hs
    have := hends _ (List.getElem_mem hpos)
    simpa using this
  rw [h1, h2, h3]

/-! ## The identifier extraction of `getItem` -/

theorem itemID_of_none (line : GoString) (h : afterFirst '[' line = none) :
    itemID line = .error .invalidToken := by
  have hl := splitAfter_length_of_none '[' line h
  simp [itemID, hl]

theorem itemID_of_some (line rest : GoString) (h : afterFirst '[' line = some rest) :
    itemID line = locateBySplitOnce line := by
  obtain ⟨h2, hsnd⟩ := splitAfter_second '[' line rest h
  have hlt : ¬ (splitAfter '[' line).length < 2 := by omega
  have hcode : itemID line
      = (match atoi (trim ']' ((splitAfter '[' rest).headD [])) with
        | none => Except.error TokenError.cannotConvert
        | some id => Except.ok id) := by
    simp only [itemID, hlt, if_false, hsnd]
  have hspec : locateBySplitOnce line
      = (match atoi (trim ']' rest) with
        | none => Except.error TokenError.cannotConvert
        | some id => Except.ok id) := by
    simp only [locateBySplitOnce, h]
  rw [hcode, hspec]
  by_cases hm : '[' ∈ rest
  · have h1 : atoi (trim ']' ((splitAfter '[' rest).headD [])) = none :=
      atoi_none_of_mem _ '[' (by decide) (by decide) (by decide)
        (mem_trim_of_ne ']' '[' (by decide) _ (splitAfter_head_mem '[' rest hm))
    have h2 : atoi (trim ']' rest) = none :=
      atoi_none_of_mem _ '[' (by decide) (by decide) (by decide)
        (mem_trim_of_ne ']' '[' (by decide) _ hm)
    rw [h1, h2]
  · rw [splitAfter_of_not_mem '[' rest hm]
    simp

/-- The extraction of `getItem` and the split at the first `[` agree on
every line. -/
theorem itemID_eq_splitOnce (line : GoString) : itemID line = locateBySplitOnce line := by
  cases h : afterFirst '[' line with
  | none => rw [itemID_of_none line h]; simp [locateBySplitOnce, h]
  | some rest => exact itemID_of_some line rest h

/-- A second `[` after the first makes the extraction fail. -/
theorem itemID_second_bracket (p q : GoString) (hq : '[' ∈ q) :
    itemID (p ++ '[' :: q) = .error .cannotConvert := by
  obtain ⟨r, hr, hmem⟩ := afterFirst_mem '[' p q
  have h2 : atoi (trim ']' r) = none :=
    atoi_none_of_mem _ '[' (by decide) (by decide) (by decide)
      (mem_trim_of_ne ']' '[' (by decide) _ (hmem _ hq))
  rw [itemID_eq_splitOnce]
  simp [locateBySplitOnce, hr, h2]

theorem trim_fmtD (n : Int) : trim ']' (fmtD n ++ [']']) = fmtD n := by
  apply trim_concat
  intro x hx hc
  subst hc
  exact not_mem_fmtD ']' (by decide) (by decide) n hx

/-- A line whose only `[` opens the bracketed decimal ID yields that ID. -/
theorem itemID_bracketed (p : GoString) (n : Int) (hp : '[' ∉ p) (hn : IsGoInt n) :
    itemID (p ++ '[' :: (fmtD n ++ [']'])) = .ok n := by
  rw [itemID_eq_splitOnce]
  simp [locateBySplitOnce, afterFirst_append '[' p _ hp, trim_fmtD, atoi_fmtD n hn]

theorem not_mem_appendInt (x : Char) (hm : x ≠ '-') (hx : isDigit x = false) (n : Int)
    (width : Nat) : x ∉ appendInt n width := by
  intro h
  unfold appendInt at h
  rcases List.mem_append.mp h with h1 | h1
  · rcases List.mem_append.mp h1 with h2 | h2
    · split at h2
      · simp at h2; exact hm h2
      · simp at h2
    · have := List.eq_of_mem_replicate h2
      subst this
      exact absurd hx (by decide)
  · have := natDigits_digits _ x h1
    rw [hx] at this; exact Bool.noConfusion this

theorem bracket_not_mem_formatStamp (c : Civil) : '[' ∉ formatStamp c := by
  have h := fun n w => not_mem_appendInt '[' (by decide) (by decide) n w
  unfold formatStamp
  simp only [List.mem_append, List.mem_singleton, not_or]
  refine ⟨⟨⟨⟨⟨⟨⟨⟨h _ _, by decide⟩, h _ _⟩, by decide⟩, h _ _⟩, by decide⟩, h _ _⟩,
    by decide⟩, h _ _⟩

theorem scoreField_plain (score : Int) (h : score ≤ 500) : scoreField score = fmtD4 score := by
  unfold scoreField
  have h1 : ¬ score > 1000 := by omega
  have h2 : ¬ score > 500 := by omega
  simp [h1, h2]

theorem summaryLine_dropLast (e : Env) (it : item) :
    (summaryLine e it).dropLast = summaryHead e it ++ '[' :: (fmtD it.ID ++ [']']) := by
  have h : summaryLine e it = (summaryHead e it ++ '[' :: (fmtD it.ID ++ [']'])) ++ ['\n'] := by
    simp [summaryLine, summaryHead]
  rw [h, List.dropLast_concat]

theorem bracket_not_mem_summaryHead (e : Env) (it : item) (ht : '[' ∉ it.Title)
    (hs : it.Score ≤ 500) : '[' ∉ summaryHead e it := by
  have h4 := fun n => not_mem_fmtD4 '[' (by decide) (by decide) (by decide) n
  unfold summaryHead
  rw [scoreField_plain _ hs]
  simp only [List.mem_append, List.mem_singleton, not_or]
  refine ⟨⟨⟨⟨⟨⟨⟨bracket_not_mem_formatStamp _, by decide⟩, h4 _⟩, by decide⟩, h4 _⟩,
    by decide⟩, ht⟩, by decide⟩

/-! ## The record locator: claims C1, C2, C3 and C10 -/

/-- C1, as amended: for every story whose title has no `[`, whose score is at
most 500 (so that the score column carries no colour escape) and whose ID is a
Go `int`, the summary line `printTopStories` writes, without its newline, is
accepted by the identifier extraction of `getItem`, which yields the ID. -/
theorem summaryLine_roundtrip (e : Env) (it : item) (ht : '[' ∉ it.Title)
    (hs : it.Score ≤ 500) (hid : IsGoInt it.ID) :
    itemID (summaryLine e it).dropLast = .ok it.ID := by
  rw [summaryLine_dropLast]
  exact itemID_bracketed _ _ (bracket_not_mem_summaryHead e it ht hs) hid

/-- C1, witness: the story of the specification, ID 12345 and title `Foo`,
with score 7. -/
theorem summaryLine_roundtrip_witness :
    '[' ∉ (fooStory 7).Title ∧ (fooStory 7).Score ≤ 500 ∧ IsGoInt (fooStory 7).ID ∧
      itemID (summaryLine demoEnv (fooStory 7)).dropLast = .ok 12345 :=
  ⟨by decide, by decide, by decide,
    summaryLine_roundtrip demoEnv (fooStory 7) (by decide) (by decide) (by decide)⟩

/-- C1, counterexample: the same story with score 501.  Its score column is
written inside the colour escape `ESC[33m`, whose `[` is the first of the
line, and the extraction fails. -/
theorem summaryLine_roundtrip_coloured :
    '[' ∉ (fooStory 501).Title ∧ IsGoInt (fooStory 501).ID ∧
      itemID (summaryLine demoEnv (fooStory 501)).dropLast = .error .cannotConvert := by
  decide

/-- C2, the code at the failing input: the prefix `Show HN: Foo [pdf]` is
followed by ` [12345]`, and the extraction fails. -/
theorem itemID_bracket_in_prefix :
    itemID ("Show HN: Foo [pdf]".toList ++ " [".toList ++ fmtD 12345 ++ "]".toList)
      = .error .cannotConvert := by
  decide

/-- C3, counterexample: on the line `[12]]` the text after the first `[` with
one trailing `]` removed is `12]`, which `strconv.Atoi` rejects, and yet the
extraction succeeds with 12. -/
theorem itemID_double_bracket :
    afterFirst '[' "[12]]".toList = some "12]]".toList ∧
      atoi (trimSuffix ']' "12]]".toList) = none ∧
      locateByTrimSuffix "[12]]".toList = .error .cannotConvert ∧
      itemID "[12]]".toList = .ok 12 := by
  decide

/-- C3, as amended: the extraction fails exactly when the line has no `[`
(then with `invalid item token`, and `getItem` returns without touching the
world) or the text after the first `[`, with every leading and trailing `]`
removed, is rejected by `strconv.Atoi`; otherwise it yields the integer
`strconv.Atoi` gives. -/
theorem itemID_fails_iff (line : GoString) :
    ((∃ err, itemID line = .error err) ↔
      (afterFirst '[' line = none ∨
        ∃ rest, afterFirst '[' line = some rest ∧ atoi (trim ']' rest) = none)) ∧
    (afterFirst '[' line = none →
      itemID line = .error .invalidToken ∧
        ∀ (e : Env) (w : World), getItem e w line = (.error (.token .invalidToken), w)) ∧
    (∀ rest n, afterFirst '[' line = some rest → atoi (trim ']' rest) = some n →
      itemID line = .ok n) := by
  refine ⟨?_, ?_, ?_⟩
  · rw [itemID_eq_splitOnce]
    cases h : afterFirst '[' line with
    | none => simp [locateBySplitOnce, h]
    | some rest =>
      cases ha : atoi (trim ']' rest) with
      | none => simp [locateBySplitOnce, h, ha]
      | some n => simp [locateBySplitOnce, h, ha]
  · intro h
    have hi := itemID_of_none line h
    refine ⟨hi, ?_⟩
    intro e w
    simp [getItem, hi]
  · intro rest n h ha
    rw [itemID_eq_splitOnce]
    simp [locateBySplitOnce, h, ha]

/-- C3, witness: the lines `Foo` (no bracket) and `Foo []12]]`. -/
theorem itemID_fails_iff_witness :
    (itemID "Foo".toList = .error .invalidToken ∧
      getItem demoEnv emptyWorld "Foo".toList = (.error (.token .invalidToken), emptyWorld)) ∧
    itemID "Foo []12]]".toList = .ok 12 :=
  ⟨⟨((itemID_fails_iff "Foo".toList).2.1 (by decide)).1,
      ((itemID_fails_iff "Foo".toList).2.1 (by decide)).2 demoEnv emptyWorld⟩,
    (itemID_fails_iff "Foo []12]]".toList).2.2 "]12]]".toList 12 (by decide) (by decide)⟩

/-- C10: the extraction of `getItem`, which splits after every `[` and uses the
second piece, gives on every line the outcome of splitting at the first `[`
only, trimming `]` on both sides of the whole remainder and calling
`strconv.Atoi`; so a line with a second `[` after the first is rejected, and
a line `p[n]` with `p` free of `[` and `n` a Go `int` yields `n`. -/
theorem itemID_refines_splitOnce :
    (∀ line, itemID line = locateBySplitOnce line) ∧
    (∀ p q : GoString, '[' ∈ q → itemID (p ++ ['['] ++ q) = .error .cannotConvert) ∧
    (∀ (p : GoString) (n : Int), '[' ∉ p → IsGoInt n →
      itemID (p ++ ['['] ++ fmtD n ++ [']']) = .ok n) := by
  refine ⟨itemID_eq_splitOnce, ?_, ?_⟩
  · intro p q hq
    have := itemID_second_bracket p q hq
    simpa using this
  · intro p n hp hn
    have := itemID_bracketed p n hp hn
    simpa using this

/-- C10, witness: the lines `a[b[1]` and `Foo [12345]`. -/
theorem itemID_refines_splitOnce_witness :
    itemID ("a".toList ++ ['['] ++ "b[1]".toList) = .error .cannotConvert ∧
    itemID ("Foo ".toList ++ ['['] ++ fmtD 12345 ++ [']']) = .ok 12345 :=
  ⟨itemID_refines_splitOnce.2.1 "a".toList "b[1]".toList (by decide),
    itemID_refines_splitOnce.2.2 "Foo ".toList 12345 (by decide) (by decide)⟩

/-! ## The fetch/cache client: claims C4 and C5 -/

theorem fetch_hit (e : Env) (w : World) (u b : GoString)
    (h : w.files (cacheName e u) = some b) : fetch e w u true = (.ok b, w) := by
  simp [fetch, h]

/-- The three ways a fetch that does not find the cache file ends. -/
theorem fetch_miss (e : Env) (w : World) (u : GoString) (cache : Bool)
    (h : (if cache then w.files (cacheName e u) else none) = none) :
    fetch e w u cache =
      (match e.net w.gets u with
        | .transportErr cause =>
          (.error ("cannot get ".toList ++ u ++ ": ".toList ++ cause),
            { w with gets := w.gets + 1 })
        | .bodyErr _ cause =>
          (.error ("cannnot read body for ".toList ++ u ++ ": ".toList ++ cause),
            { w with gets := w.gets + 1 })
        | .body _ buf =>
          if cache && e.writeOk (cacheName e u) then
            (.ok buf, { files := fun name => if name = cacheName e u then some buf
                                              else w.files name,
                        gets := w.gets + 1 })
          else (.ok buf, { w with gets := w.gets + 1 })) := by
  simp only [fetch, h]

/-- C4, counterexample: record 5 cannot be reached (`http.Get` fails both
times), nothing is cached, and two consecutive calls perform two GETs. -/
theorem fetch_twice_two_gets :
    (∃ msg, (fetch demoEnv emptyWorld (itemURL 5) true).1 = .error msg) ∧
      ¬ (fetch demoEnv (fetch demoEnv emptyWorld (itemURL 5) true).2 (itemURL 5) true).2.gets
          ≤ emptyWorld.gets + 1 := by
  refine ⟨⟨_, rfl⟩, ?_⟩
  decide

/-- C4, as amended: when the first call `fetch(u, true)` returns bytes and the
cache file can be written where the call has to write it, the second call
returns the same bytes from the cache and leaves the world as it is, so the
two calls perform at most one GET in total. -/
theorem fetch_twice (e : Env) (w w1 : World) (u b : GoString)
    (h1 : fetch e w u true = (.ok b, w1))
    (hw : w.files (cacheName e u) = none → e.writeOk (cacheName e u) = true) :
    fetch e w1 u true = (.ok b, w1) ∧ w1.gets ≤ w.gets + 1 := by
  cases hf : w.files (cacheName e u) with
  | some b0 =>
    rw [fetch_hit e w u b0 hf] at h1
    simp only [Prod.mk.injEq, Except.ok.injEq] at h1
    obtain ⟨hb, hw1⟩ := h1
    subst hb; subst hw1
    exact ⟨fetch_hit e w u b0 hf, by omega⟩
  | none =>
    rw [fetch_miss e w u true (by simp [hf])] at h1
    have hok := hw hf
    cases hn : e.net w.gets u with
    | transportErr cause => rw [hn] at h1; simp at h1
    | bodyErr st cause => rw [hn] at h1; simp at h1
    | body st buf =>
      rw [hn] at h1
      simp only [hok, Bool.and_self, if_true, Prod.mk.injEq, Except.ok.injEq] at h1
      obtain ⟨hb, hw1⟩ := h1
      subst hb; subst hw1
      exact ⟨fetch_hit e _ u buf (by simp), by simp⟩

/-- C4, witness: record 2 with a cache directory that can be written. -/
theorem fetch_twice_witness :
    fetch demoEnvCached (fetch demoEnvCached emptyWorld (itemURL 2) true).2 (itemURL 2) true
        = (.ok "2".toList, (fetch demoEnvCached emptyWorld (itemURL 2) true).2) ∧
      (fetch demoEnvCached emptyWorld (itemURL 2) true).2.gets ≤ emptyWorld.gets + 1 :=
  fetch_twice demoEnvCached emptyWorld _ (itemURL 2) "2".toList rfl (fun _ => rfl)

/-- C5, counterexample: the network answers the GET for record 3 with status
404 and the body `Not Found`; `fetch` returns that body as bytes. -/
theorem fetch_status_404 :
    demoEnv.net emptyWorld.gets (itemURL 3) = .body 404 "Not Found".toList ∧
      (fetch demoEnv emptyWorld (itemURL 3) true).1 = .ok "Not Found".toList := by
  decide

/-- The result of `fetch`, read off the cache and the answer of the network. -/
theorem fetch_result (e : Env) (w : World) (u : GoString) (cache : Bool) :
    ((∃ msg, (fetch e w u cache).1 = .error msg) ↔
      ((if cache then w.files (cacheName e u) else none) = none ∧
        ((∃ cause, e.net w.gets u = .transportErr cause) ∨
          ∃ status cause, e.net w.gets u = .bodyErr status cause))) ∧
    (∀ b, (fetch e w u cache).1 = .ok b ↔
      ((if cache then w.files (cacheName e u) else none) = some b ∨
        ((if cache then w.files (cacheName e u) else none) = none ∧
          ∃ status, e.net w.gets u = .body status b))) := by
  cases hf : (if cache then w.files (cacheName e u) else none) with
  | some b0 =>
    have hfetch : fetch e w u cache = (.ok b0, w) := by simp only [fetch, hf]
    rw [hfetch]
    constructor
    · simp
    · intro b; simp
  | none =>
    rw [fetch_miss e w u cache hf]
    cases hn : e.net w.gets u with
    | transportErr cause => simp
    | bodyErr st cause => simp
    | body st buf =>
      by_cases hc : (cache && e.writeOk (cacheName e u)) = true
      · constructor
        · simp [hc]
        · intro b; simp [hc]
      · constructor
        · simp [hc]
        · intro b; simp [hc]

/-- A body that was read is written to the cache file when the cache is on
and the write succeeds, whatever the status code. -/
theorem fetch_stores (e : Env) (w : World) (u : GoString) (status : Nat) (b : GoString)
    (hmiss : w.files (cacheName e u) = none) (hnet : e.net w.gets u = .body status b)
    (hw : e.writeOk (cacheName e u) = true) :
    (fetch e w u true).2.files (cacheName e u) = some b := by
  rw [fetch_miss e w u true (by simp [hmiss]), hnet]
  simp [hw]

/-- The cache directory is left as it was in every other case. -/
theorem fetch_keeps (e : Env) (w : World) (u : GoString) (cache : Bool)
    (h : ¬ (cache = true ∧ e.writeOk (cacheName e u) = true ∧
      w.files (cacheName e u) = none ∧ ∃ status b, e.net w.gets u = .body status b)) :
    (fetch e w u cache).2.files = w.files := by
  cases hf : (if cache then w.files (cacheName e u) else none) with
  | some b0 =>
    have hfetch : fetch e w u cache = (.ok b0, w) := by simp only [fetch, hf]
    rw [hfetch]
  | none =>
    rw [fetch_miss e w u cache hf]
    cases hn : e.net w.gets u with
    | transportErr cause => rfl
    | bodyErr st cause => rfl
    | body st buf =>
      cases hc : cache with
      | false => simp
      | true =>
        cases hwr : e.writeOk (cacheName e u) with
        | false => simp
        | true =>
          exfalso
          apply h
          subst hc
          exact ⟨rfl, hwr, by simpa using hf, st, buf, hn⟩

/-- C5, as amended: `fetch` returns an error exactly when the cache does not
answer and `http.Get` fails or the body cannot be read; it returns bytes
exactly for a cache hit or for a response whose body was read, whatever the
status code of that response; such a body is written to the cache file when
the cache is on and the write succeeds, and in every other case the cache
directory is left as it was. -/
theorem fetch_outcome (e : Env) (w : World) (u : GoString) (cache : Bool) :
    ((∃ msg, (fetch e w u cache).1 = .error msg) ↔
      ((if cache then w.files (cacheName e u) else none) = none ∧
        ((∃ cause, e.net w.gets u = .transportErr cause) ∨
          ∃ status cause, e.net w.gets u = .bodyErr status cause))) ∧
    (∀ b, (fetch e w u cache).1 = .ok b ↔
      ((if cache then w.files (cacheName e u) else none) = some b ∨
        ((if cache then w.files (cacheName e u) else none) = none ∧
          ∃ status, e.net w.gets u = .body status b))) ∧
    (∀ status b, cache = true → e.writeOk (cacheName e u) = true →
      w.files (cacheName e u) = none → e.net w.gets u = .body status b →
        (fetch e w u cache).2.files (cacheName e u) = some b) ∧
    (¬ (cache = true ∧ e.writeOk (cacheName e u) = true ∧
        w.files (cacheName e u) = none ∧ ∃ status b, e.net w.gets u = .body status b) →
      (fetch e w u cache).2.files = w.files) := by
  refine ⟨(fetch_result e w u cache).1, (fetch_result e w u cache).2, ?_, fetch_keeps e w u cache⟩
  intro status b hc hw hmiss hnet
  subst hc
  exact fetch_stores e w u status b hmiss hnet hw

/-- C5, witness: the 404 answer for record 3 is returned as bytes; it is
written to the cache file when the directory can be written and leaves the
directory as it was when it cannot. -/
theorem fetch_outcome_witness :
    (fetch demoEnv emptyWorld (itemURL 3) true).1 = .ok "Not Found".toList ∧
    (fetch demoEnvCached emptyWorld (itemURL 3) true).2.files
        (cacheName demoEnvCached (itemURL 3)) = some "Not Found".toList ∧
    (fetch demoEnv emptyWorld (itemURL 3) true).2.files = emptyWorld.files :=
  ⟨((fetch_outcome demoEnv emptyWorld (itemURL 3) true).2.1 _).mpr (Or.inr ⟨rfl, 404, rfl⟩),
    (fetch_outcome demoEnvCached emptyWorld (itemURL 3) true).2.2.1 404 "Not Found".toList
      rfl rfl rfl rfl,
    (fetch_outcome demoEnv emptyWorld (itemURL 3) true).2.2.2
      (fun h => Bool.noConfusion h.2.1)⟩

/-! ## The list formatter: claim C6 -/

theorem storiesLoop_cons (e : Env) (n : Int) (rest : List Int) (w : World) :
    storiesLoop e (n :: rest) w
      = (storyRow e n (unmarshalItem e w n).1 :: (storiesLoop e rest (unmarshalItem e w n).2).1,
          (storiesLoop e rest (unmarshalItem e w n).2).2) := rfl

theorem storiesLoop_length (e : Env) :
    ∀ (st : List Int) (w : World), (storiesLoop e st w).1.length = st.length := by
  intro st
  induction st with
  | nil => intro w; rfl
  | cons n rest ih => intro w; rw [storiesLoop_cons]; simp [ih]

/-- The `i`-th row is the row of the `i`-th ID for the outcome of its
`unmarshal` in the world the first `i` IDs have left. -/
theorem storiesLoop_row (e : Env) :
    ∀ (st : List Int) (w : World) (i : Nat) (n : Int), st[i]? = some n →
      (storiesLoop e st w).1[i]?
        = some (storyRow e n (unmarshalItem e (storiesLoop e (st.take i) w).2 n).1) := by
  intro st
  induction st with
  | nil => intro w i n h; simp at h
  | cons m rest ih =>
    intro w i n h
    cases i with
    | zero =>
      simp only [List.getElem?_cons_zero, Option.some.injEq] at h
      subst h
      rw [storiesLoop_cons]
      simp [storiesLoop]
    | succ j =>
      simp only [List.getElem?_cons_succ] at h
      rw [storiesLoop_cons, List.take_succ_cons, storiesLoop_cons]
      simpa using ih (unmarshalItem e w m).2 j n h

/-- C6: when the top-stories fetch returns a list of N story IDs,
`printTopStories` returns no error and writes exactly N rows; the `i`-th row
belongs to the `i`-th ID and is the diagnostic line `<id>: error fetching`
when the fetch or decode of that item fails (in the world the earlier IDs
have left) and the summary line of the story otherwise. -/
theorem printTopStories_rows (e : Env) (w w1 : World) (st : List Int)
    (h : unmarshal e e.decodeStories w topStories false = (.ok st, w1)) :
    (printTopStories e w).err = none ∧
    (printTopStories e w).rows.length = st.length ∧
    ∀ (i : Nat) (n : Int), st[i]? = some n →
      (∀ err, (unmarshalItem e (storiesLoop e (st.take i) w1).2 n).1 = .error err →
        (printTopStories e w).rows[i]? = some (fmtD n ++ ": error fetching\n".toList)) ∧
      (∀ it, (unmarshalItem e (storiesLoop e (st.take i) w1).2 n).1 = .ok it →
        (printTopStories e w).rows[i]? = some (summaryLine e it)) := by
  have hp : printTopStories e w
      = { err := none, rows := (storiesLoop e st w1).1, world := (storiesLoop e st w1).2 } := by
    simp only [printTopStories, h]
  rw [hp]
  refine ⟨rfl, storiesLoop_length e st w1, ?_⟩
  intro i n hi
  have hrow := storiesLoop_row e st w1 i n hi
  constructor
  · intro err herr
    simp only [hrow, herr, storyRow, fetchErrorLine]
  · intro it hok
    simp only [hrow, hok, storyRow]

/-- C6, witness: the list `[1, 3]`; record 1 is a story, the body of record 3
does not decode. -/
theorem printTopStories_rows_witness :
    (printTopStories demoEnv emptyWorld).err = none ∧
    (printTopStories demoEnv emptyWorld).rows.length = 2 ∧
    (printTopStories demoEnv emptyWorld).rows[0]? = some (summaryLine demoEnv demoStory) ∧
    (printTopStories demoEnv emptyWorld).rows[1]? = some "3: error fetching\n".toList := by
  have h0 : unmarshal demoEnv demoEnv.decodeStories emptyWorld topStories false
      = (.ok [1, 3], (unmarshal demoEnv demoEnv.decodeStories emptyWorld topStories false).2) :=
    Prod.ext (by decide) rfl
  have h := printTopStories_rows demoEnv emptyWorld _ [1, 3] h0
  have h1 : (unmarshalItem demoEnv (storiesLoop demoEnv (List.take 0 [1, 3])
      (unmarshal demoEnv demoEnv.decodeStories emptyWorld topStories false).2).2 1).1
      = .ok demoStory := by decide
  have h3 : (unmarshalItem demoEnv (storiesLoop demoEnv (List.take 1 [1, 3])
      (unmarshal demoEnv demoEnv.decodeStories emptyWorld topStories false).2).2 3).1
      = .error ("cannnot unmarshal body for ".toList ++ itemURL 3 ++
          ": invalid character".toList) := by decide
  exact ⟨h.1, h.2.1, (h.2.2 0 1 (by decide)).2 demoStory h1, (h.2.2 1 3 (by decide)).1 _ h3⟩

/-! ## The tree renderer over settled outcomes -/

theorem kidsLoop_agrees (e : Env) (Inv : World → Prop) (f : Int → Except GoString item)
    (hS : Settled e Inv f)
    (self : World → item → GoString → Option (List Emit × World))
    (pself : item → GoString → Option (List Emit))
    (hself : ∀ w it ind, Inv w → Agrees Inv (self w it ind) (pself it ind))
    (indent : GoString) :
    ∀ (kids : List Int) (w : World), Inv w →
      Agrees Inv (kidsLoop e self indent kids w) (renderKids f pself indent kids) := by
  intro kids
  induction kids with
  | nil => intro w hw; exact ⟨w, hw, rfl⟩
  | cons n rest ih =>
    intro w hw
    have hr : unmarshalItem e w n = (f n, (unmarshalItem e w n).2) :=
      Prod.ext (hS.gives w n hw) rfl
    have hk := hS.keeps w n hw
    rw [kidsLoop, renderKids, hr]
    cases hf : f n with
    | error err =>
      have h1 := ih _ hk
      simp only
      cases hp : renderKids f pself indent rest with
      | none =>
        rw [hp] at h1
        simp only [Agrees] at h1 ⊢
        rw [h1]
      | some o =>
        rw [hp] at h1
        obtain ⟨w2, hw2, h2⟩ := h1
        simp only [Agrees]
        exact ⟨w2, hw2, by rw [h2]⟩
    | ok cit =>
      have h0 := hself (unmarshalItem e w n).2 cit (indent ++ ['\t']) hk
      simp only
      cases hq : pself cit (indent ++ ['\t']) with
      | none =>
        rw [hq] at h0
        simp only [Agrees] at h0 ⊢
        rw [h0]
      | some o1 =>
        rw [hq] at h0
        obtain ⟨w2, hw2, h2⟩ := h0
        have h1 := ih w2 hw2
        rw [h2]
        simp only
        cases hp : renderKids f pself indent rest with
        | none =>
          rw [hp] at h1
          simp only [Agrees] at h1 ⊢
          rw [h1]
        | some o2 =>
          rw [hp] at h1
          obtain ⟨w3, hw3, h3⟩ := h1
          simp only [Agrees]
          exact ⟨w3, hw3, by rw [h3]⟩

/-- On settled outcomes the program writes the chunks of `render`, and needs
more fuel exactly when `render` does. -/
theorem printComments_agrees (e : Env) (Inv : World → Prop) (f : Int → Except GoString item)
    (hS : Settled e Inv f) :
    ∀ (fuel : Nat) (w : World) (it : item) (indent : GoString), Inv w →
      Agrees Inv (printComments e fuel w it indent) (render f fuel it indent) := by
  intro fuel
  induction fuel with
  | zero => intro w it indent _; rfl
  | succ k ih =>
    intro w it indent hw
    have h := kidsLoop_agrees e Inv f hS (fun w1 cit ind => printComments e k w1 cit ind)
      (fun cit ind => render f k cit ind) (fun w1 cit ind hw1 => ih w1 cit ind hw1)
      indent it.Kids w hw
    rw [printComments, render]
    cases hp : renderKids f (fun cit ind => render f k cit ind) indent it.Kids with
    | none =>
      rw [hp] at h
      simp only [Agrees] at h ⊢
      rw [h]
    | some o =>
      rw [hp] at h
      obtain ⟨w2, hw2, h2⟩ := h
      simp only [Agrees]
      exact ⟨w2, hw2, by rw [h2]⟩


theorem agrees_map {β : Type} (Inv : World → Prop) (r : Option (List Emit × World))
    (p : Option (List Emit)) (g : List Emit → β) (h : Agrees Inv r p) :
    r.map (fun x => g x.1) = p.map g := by
  cases p with
  | none => simp only [Agrees] at h; rw [h]; rfl
  | some o =>
    obtain ⟨w, _, hr⟩ := h
    rw [hr]; rfl

theorem renderKids_of_shows (f : Int → Except GoString item)
    (self : item → GoString → Option (List Emit)) (k : Nat)
    (hself : ∀ (it : item) (kids : List Thread) (ind : GoString),
      Thread.ShowsAll f kids it.Kids → Thread.heightAll kids < k →
        self it ind = some (.header it.Title :: Thread.emitsAll ind kids))
    (indent : GoString) :
    ∀ (ts : List Thread) (ns : List Int), Thread.ShowsAll f ts ns → Thread.heightAll ts ≤ k →
      renderKids f self indent ns = some (Thread.emitsAll indent ts) := by
  intro ts
  induction ts with
  | nil =>
    intro ns hs _
    cases ns with
    | nil => rfl
    | cons n rest => simp [Thread.ShowsAll] at hs
  | cons t ts ih =>
    intro ns hs hh
    cases ns with
    | nil => simp [Thread.ShowsAll] at hs
    | cons n rest =>
      simp only [Thread.ShowsAll] at hs
      obtain ⟨ht, hrest⟩ := hs
      simp only [Thread.heightAll] at hh
      have hrec := ih rest hrest (by omega)
      cases t with
      | missing msg =>
        simp only [Thread.Shows] at ht
        rw [renderKids, ht]
        simp only [hrec, Thread.emitsAll, Thread.emits, List.cons_append, List.nil_append]
      | node it kids =>
        simp only [Thread.Shows] at ht
        obtain ⟨hf, hkids⟩ := ht
        simp only [Thread.height] at hh
        have hs1 := hself it kids (indent ++ ['\t']) hkids (by omega)
        rw [renderKids, hf]
        simp only [hs1, hrec, Thread.emitsAll, Thread.emits, List.cons_append]

/-- With more fuel than the threads below a record are high, `render` writes
the header of the record and then the chunks of the threads. -/
theorem render_of_shows (f : Int → Except GoString item) :
    ∀ (k : Nat) (it : item) (kids : List Thread) (ind : GoString),
      Thread.ShowsAll f kids it.Kids → Thread.heightAll kids < k →
        render f k it ind = some (.header it.Title :: Thread.emitsAll ind kids) := by
  intro k
  induction k with
  | zero => intro it kids ind _ hh; omega
  | succ k ih =>
    intro it kids ind hs hh
    have h := renderKids_of_shows f (fun cit i => render f k cit i) k ih ind kids it.Kids hs
      (by omega)
    rw [render, h]

/-- The program on a finite thread: it returns, having written the header of
the record and the chunks of the threads. -/
theorem printComments_of_shows (e : Env) (Inv : World → Prop)
    (f : Int → Except GoString item) (hS : Settled e Inv f) (w : World) (hw : Inv w)
    (root : item) (ts : List Thread) (hs : Thread.ShowsAll f ts root.Kids)
    (indent : GoString) (fuel : Nat) (hfuel : Thread.heightAll ts < fuel) :
    ∃ w1, Inv w1 ∧ printComments e fuel w root indent
      = some (.header root.Title :: Thread.emitsAll indent ts, w1) := by
  have h := printComments_agrees e Inv f hS fuel w root indent hw
  rw [render_of_shows f fuel root ts indent hs hfuel] at h
  exact h

mutual
theorem tagged_emits (d : Nat) : ∀ (t : Thread) (indent : GoString),
    (Thread.emits indent t).filterMap Emit.tagged = (Thread.walk d t).map (fun r => r.2.By)
  | .missing _, _ => by simp [Thread.emits, Thread.walk, Emit.tagged]
  | .node it kids, indent => by
    have := tagged_emitsAll (d + 1) kids (indent ++ ['\t'])
    simp [Thread.emits, Thread.walk, Emit.tagged, this]
theorem tagged_emitsAll (d : Nat) : ∀ (ts : List Thread) (indent : GoString),
    (Thread.emitsAll indent ts).filterMap Emit.tagged
      = (Thread.walkAll d ts).map (fun r => r.2.By)
  | [], _ => by simp [Thread.emitsAll, Thread.walkAll]
  | t :: ts, indent => by
    have h1 := tagged_emits d t indent
    have h2 := tagged_emitsAll d ts indent
    simp [Thread.emitsAll, Thread.walkAll, h1, h2]
end

mutual
theorem walk_length (d : Nat) : ∀ (t : Thread), Thread.complete t = true →
    (Thread.walk d t).length = Thread.edges t
  | .missing _, h => by simp [Thread.complete] at h
  | .node it kids, h => by
    simp only [Thread.complete] at h
    have := walkAll_length (d + 1) kids h
    simp [Thread.walk, Thread.edges, this]
theorem walkAll_length (d : Nat) : ∀ (ts : List Thread), Thread.completeAll ts = true →
    (Thread.walkAll d ts).length = Thread.edgesAll ts
  | [], _ => by simp [Thread.walkAll, Thread.edgesAll]
  | t :: ts, h => by
    simp only [Thread.completeAll, Bool.and_eq_true] at h
    have h1 := walk_length d t h.1
    have h2 := walkAll_length d ts h.2
    simp [Thread.walkAll, Thread.edgesAll, h1, h2]
end

mutual
theorem walk_depth (d : Nat) : ∀ (t : Thread), ∀ r ∈ Thread.walk d t, d ≤ r.1
  | .missing _ => by simp [Thread.walk]
  | .node it kids => by
    intro r hr
    simp only [Thread.walk, List.mem_cons] at hr
    rcases hr with h | h
    · rw [h]
    · have := walkAll_depth (d + 1) kids r h
      omega
theorem walkAll_depth (d : Nat) : ∀ (ts : List Thread), ∀ r ∈ Thread.walkAll d ts, d ≤ r.1
  | [] => by simp [Thread.walkAll]
  | t :: ts => by
    intro r hr
    simp only [Thread.walkAll, List.mem_append] at hr
    rcases hr with h | h
    · exact walk_depth d t r h
    · exact walkAll_depth d ts r h
end

theorem replicate_tab (indent : GoString) (d k : Nat) (h : d + 1 ≤ k) :
    (indent ++ ['\t']) ++ List.replicate (k - (d + 1)) '\t'
      = indent ++ List.replicate (k - d) '\t' := by
  obtain ⟨j, rfl⟩ : ∃ j, k = d + 1 + j := ⟨k - (d + 1), by omega⟩
  have h1 : d + 1 + j - (d + 1) = j := by omega
  have h2 : d + 1 + j - d = j + 1 := by omega
  rw [h1, h2, List.replicate_succ]
  simp

mutual
theorem tagIndent_emits (d : Nat) : ∀ (t : Thread) (indent : GoString),
    (Thread.emits indent t).filterMap Emit.tagIndent
      = (Thread.walk d t).map (fun r => indent ++ List.replicate (r.1 - d) '\t')
  | .missing _, _ => by simp [Thread.emits, Thread.walk, Emit.tagIndent]
  | .node it kids, indent => by
    have h := tagIndent_emitsAll (d + 1) kids (indent ++ ['\t'])
    have hd := walkAll_depth (d + 1) kids
    have hmap : (Thread.walkAll (d + 1) kids).map
          (fun r => (indent ++ ['\t']) ++ List.replicate (r.1 - (d + 1)) '\t')
        = (Thread.walkAll (d + 1) kids).map
          (fun r => indent ++ List.replicate (r.1 - d) '\t') := by
      apply List.map_congr_left
      intro r hr
      exact replicate_tab indent d r.1 (hd r hr)
    rw [hmap] at h
    simp [Thread.emits, Thread.walk, Emit.tagIndent, h]
theorem tagIndent_emitsAll (d : Nat) : ∀ (ts : List Thread) (indent : GoString),
    (Thread.emitsAll indent ts).filterMap Emit.tagIndent
      = (Thread.walkAll d ts).map (fun r => indent ++ List.replicate (r.1 - d) '\t')
  | [], _ => by simp [Thread.emitsAll, Thread.walkAll]
  | t :: ts, indent => by
    have h1 := tagIndent_emits d t indent
    have h2 := tagIndent_emitsAll d ts indent
    simp [Thread.emitsAll, Thread.walkAll, h1, h2]
end


theorem renderKids_append (f : Int → Except GoString item)
    (self : item → GoString → Option (List Emit)) (indent : GoString) (l : List Int) :
    ∀ a : List Int, renderKids f self indent (a ++ l)
      = (renderKids f self indent a).bind
          (fun oa => (renderKids f self indent l).map (fun ol => oa ++ ol)) := by
  intro a
  induction a with
  | nil => cases h : renderKids f self indent l <;> simp [renderKids, h]
  | cons n rest ih =>
    rw [List.cons_append, renderKids, renderKids, ih]
    cases hf : f n with
    | error err =>
      cases h1 : renderKids f self indent rest with
      | none => simp
      | some o1 => cases h2 : renderKids f self indent l <;> simp
    | ok cit =>
      cases h0 : self cit (indent ++ ['\t']) with
      | none => simp [h0]
      | some o0 =>
        cases h1 : renderKids f self indent rest with
        | none => simp [h0]
        | some o1 => cases h2 : renderKids f self indent l <;> simp [h0]

theorem renderKids_failed (f : Int → Except GoString item)
    (self : item → GoString → Option (List Emit)) (indent : GoString) (n : Int)
    (msg : GoString) (b : List Int) (hn : f n = .error msg) :
    renderKids f self indent (n :: b)
      = (renderKids f self indent b).map (fun ob => Emit.failure msg :: ob) := by
  rw [renderKids, hn]
  cases renderKids f self indent b <;> rfl

/-- On settled outcomes the chunks after the header are those of the loop of
`render`. -/
theorem kidsChunks_eq (e : Env) (Inv : World → Prop) (f : Int → Except GoString item)
    (hS : Settled e Inv f) (w : World) (hw : Inv w) (it : item) (indent : GoString)
    (k : Nat) (kids : List Int) :
    kidsChunks e (k + 1) w it indent kids
      = renderKids f (fun cit ind => render f k cit ind) indent kids := by
  have h := agrees_map Inv _ _ List.tail
    (printComments_agrees e Inv f hS (k + 1) w { it with Kids := kids } indent hw)
  unfold kidsChunks
  rw [h, render]
  cases renderKids f (fun cit ind => render f k cit ind) indent kids <;> rfl

theorem kidsChunks_zero (e : Env) (w : World) (it : item) (indent : GoString)
    (kids : List Int) : kidsChunks e 0 w it indent kids = none := rfl

/-- The message of a failed `unmarshal` starts with the wrapping text and the
locator. -/
theorem unmarshal_error_shape {α : Type} (e : Env) (dec : GoString → Except GoString α)
    (w : World) (url : GoString) (cache : Bool) (msg : GoString)
    (h : (unmarshal e dec w url cache).1 = .error msg) :
    ("cannot fetch ".toList ++ url ++ ": ".toList) <+: msg ∨
      ("cannnot unmarshal body for ".toList ++ url ++ ": ".toList) <+: msg := by
  unfold unmarshal at h
  cases hf : fetch e w url cache with
  | mk r w1 =>
    rw [hf] at h
    cases r with
    | error err =>
      simp only [Except.error.injEq] at h
      exact Or.inl ⟨err, h⟩
    | ok buf =>
      simp only at h
      cases hd : dec buf with
      | error err =>
        rw [hd] at h
        simp only [Except.error.injEq] at h
        exact Or.inr ⟨err, h⟩
      | ok d => rw [hd] at h; simp at h

/-- In `demoEnv` nothing is ever cached and the network is stationary: the
outcomes of `unmarshal` are settled on the worlds with an empty cache. -/
theorem demoEnv_settled : Settled demoEnv EmptyCache demoOutcome := by
  have hfetch : ∀ (w : World) (u : GoString), EmptyCache w →
      fetch demoEnv w u true
        = ((fetch demoEnv emptyWorld u true).1, { w with gets := w.gets + 1 }) := by
    intro w u hw
    have h0 : (if true = true then w.files (cacheName demoEnv u) else none) = none := by
      simp [hw (cacheName demoEnv u)]
    have h1 : (if true = true then emptyWorld.files (cacheName demoEnv u) else none)
        = none := by simp [emptyWorld]
    rw [fetch_miss demoEnv w u true h0, fetch_miss demoEnv emptyWorld u true h1]
    have hnet : demoEnv.net w.gets u = demoEnv.net emptyWorld.gets u := rfl
    have hwr : demoEnv.writeOk (cacheName demoEnv u) = false := rfl
    rw [hnet, hwr]
    cases demoEnv.net emptyWorld.gets u <;> simp
  constructor
  · intro w n hw name
    simp only [unmarshalItem, unmarshal, hfetch w (itemURL n) hw]
    cases (fetch demoEnv emptyWorld (itemURL n) true).1 with
    | error err => exact hw name
    | ok buf =>
      simp only
      cases demoEnv.decodeItem buf <;> exact hw name
  · intro w n hw
    simp only [demoOutcome, unmarshalItem, unmarshal, hfetch w (itemURL n) hw]
    cases hf : fetch demoEnv emptyWorld (itemURL n) true with
    | mk r w1 =>
      cases r with
      | error err => rfl
      | ok buf =>
        simp only
        cases demoEnv.decodeItem buf <;> rfl

theorem emptyWorld_emptyCache : EmptyCache emptyWorld := fun _ => rfl


theorem unmarshal_fst {α : Type} (e : Env) (dec : GoString → Except GoString α)
    (w : World) (url : GoString) (cache : Bool) :
    (unmarshal e dec w url cache).1
      = (match (fetch e w url cache).1 with
        | .error err => .error ("cannot fetch ".toList ++ url ++ ": ".toList ++ err)
        | .ok buf =>
          match dec buf with
          | .error err =>
            .error ("cannnot unmarshal body for ".toList ++ url ++ ": ".toList ++ err)
          | .ok d => .ok d) := by
  unfold unmarshal
  cases hf : fetch e w url cache with
  | mk r w1 =>
    cases r with
    | error err => rfl
    | ok buf => simp only; cases dec buf <;> rfl

theorem unmarshal_snd {α : Type} (e : Env) (dec : GoString → Except GoString α)
    (w : World) (url : GoString) (cache : Bool) :
    (unmarshal e dec w url cache).2 = (fetch e w url cache).2 := by
  unfold unmarshal
  cases hf : fetch e w url cache with
  | mk r w1 =>
    cases r with
    | error err => rfl
    | ok buf => simp only; cases dec buf <;> rfl

/-- What a fetch with the cache on returns, read off the world. -/
theorem fetch_fst (e : Env) (w : World) (u : GoString) :
    (fetch e w u true).1
      = (match w.files (cacheName e u) with
        | some buf => .ok buf
        | none =>
          match e.net w.gets u with
          | .transportErr cause => .error ("cannot get ".toList ++ u ++ ": ".toList ++ cause)
          | .bodyErr _ cause =>
            .error ("cannnot read body for ".toList ++ u ++ ": ".toList ++ cause)
          | .body _ buf => .ok buf) := by
  cases hf : w.files (cacheName e u) with
  | some buf => rw [fetch_hit e w u buf hf]
  | none =>
    rw [fetch_miss e w u true (by simp [hf])]
    cases e.net w.gets u with
    | transportErr cause => rfl
    | bodyErr st cause => rfl
    | body st buf => simp only; split <;> rfl

/-- Against a stationary network, with cache file names that tell the item
locators apart, the outcomes of `unmarshal` are settled on the worlds that
answer every item fetch as the initial world `w0` does, whether the cache
directory can be written or not. -/
theorem settled_of_stationary (e : Env) (w0 : World)
    (hnet : ∀ k u, e.net k u = e.net 0 u)
    (hinj : ∀ n m : Int, cacheName e (itemURL n) = cacheName e (itemURL m) → n = m) :
    Settled e
      (fun w => ∀ n : Int, (fetch e w (itemURL n) true).1 = (fetch e w0 (itemURL n) true).1)
      (fun n => (unmarshalItem e w0 n).1) := by
  constructor
  · intro w m hw n
    rw [← hw n]
    simp only [unmarshalItem, unmarshal_snd]
    cases hf : w.files (cacheName e (itemURL m)) with
    | some buf => rw [fetch_hit e w _ buf hf]
    | none =>
      rw [fetch_miss e w _ true (by simp [hf])]
      cases hr : e.net w.gets (itemURL m) with
      | transportErr cause =>
        simp only [fetch_fst]
        rw [hnet (w.gets + 1), hnet w.gets]
      | bodyErr st cause =>
        simp only [fetch_fst]
        rw [hnet (w.gets + 1), hnet w.gets]
      | body st buf =>
        cases hc : e.writeOk (cacheName e (itemURL m)) with
        | true =>
          simp only [Bool.and_self, if_true, fetch_fst]
          by_cases hk : cacheName e (itemURL n) = cacheName e (itemURL m)
          · have hnm := hinj n m hk
            subst hnm
            simp only [if_true, hf, hr]
          · simp only [hk, if_false]
            rw [hnet (w.gets + 1), hnet w.gets]
        | false =>
          simp only [Bool.and_false, Bool.false_eq_true, if_false, fetch_fst]
          rw [hnet (w.gets + 1), hnet w.gets]
  · intro w n hw
    simp only [unmarshalItem, unmarshal_fst, hw n]

theorem bobThreads_shows : Thread.ShowsAll demoOutcome bobThreads (reply 4 "bob".toList [6, 7]).Kids := by
  simp only [bobThreads, reply, Thread.ShowsAll, Thread.Shows, and_true]
  decide

theorem demoThreads_shows : Thread.ShowsAll demoOutcome demoThreads demoStory.Kids := by
  simp only [demoThreads, bobThreads, demoStory, fooStory, reply, Thread.ShowsAll, Thread.Shows,
    and_true]
  decide

theorem isFailure_header (t : GoString) : (Emit.header t).isFailure = false := rfl

theorem isFailure_failure (m : GoString) : (Emit.failure m).isFailure = true := rfl

theorem isFailure_author (i who : GoString) : (Emit.author i who).isFailure = false := rfl

theorem isFailure_body (i t : GoString) : (Emit.body i t).isFailure = false := rfl

mutual
theorem filter_emits (d : Nat) : ∀ (t : Thread) (indent : GoString),
    (Thread.emits indent t).filter (fun c => !c.isFailure)
      = (Thread.walk d t).flatMap (recordChunks indent d)
  | .missing _, _ => by simp [Thread.emits, Thread.walk, List.filter_cons, isFailure_failure]
  | .node it kids, indent => by
    have h := filter_emitsAll (d + 1) kids (indent ++ ['\t'])
    have hd := walkAll_depth (d + 1) kids
    have hmap : (Thread.walkAll (d + 1) kids).flatMap (recordChunks (indent ++ ['\t']) (d + 1))
        = (Thread.walkAll (d + 1) kids).flatMap (recordChunks indent d) := by
      apply List.flatMap_congr
      intro r hr
      simp only [recordChunks, replicate_tab indent d r.1 (hd r hr)]
    rw [hmap] at h
    simp [Thread.emits, Thread.walk, List.filter_cons, isFailure_header, isFailure_author,
      isFailure_body, recordChunks, h]
theorem filter_emitsAll (d : Nat) : ∀ (ts : List Thread) (indent : GoString),
    (Thread.emitsAll indent ts).filter (fun c => !c.isFailure)
      = (Thread.walkAll d ts).flatMap (recordChunks indent d)
  | [], _ => by simp [Thread.emitsAll, Thread.walkAll]
  | t :: ts, indent => by
    have h1 := filter_emits d t indent
    have h2 := filter_emitsAll d ts indent
    simp [Thread.emitsAll, Thread.walkAll, h1, h2]
end

/-- On settled outcomes and finite threads the run returns, and the chunks
after the header are those of the threads. -/
theorem kidsChunks_of_shows (e : Env) (Inv : World → Prop)
    (f : Int → Except GoString item) (hS : Settled e Inv f) (w : World) (hw : Inv w)
    (it : item) (kids : List Int) (ts : List Thread) (hs : Thread.ShowsAll f ts kids)
    (indent : GoString) (fuel : Nat) (hfuel : Thread.heightAll ts < fuel) :
    kidsChunks e fuel w it indent kids = some (Thread.emitsAll indent ts) := by
  obtain ⟨w1, _, hrun⟩ :=
    printComments_of_shows e Inv f hS w hw { it with Kids := kids } ts hs indent fuel hfuel
  unfold kidsChunks
  rw [hrun]
  rfl

/-- The chunks around a failed child, for every fuel: the run needs more fuel
exactly when the earlier or the later siblings do. -/
theorem kidsChunks_failed (e : Env) (Inv : World → Prop)
    (f : Int → Except GoString item) (hS : Settled e Inv f) (w : World) (hw : Inv w)
    (it : item) (a b : List Int) (n : Int) (msg : GoString) (hn : f n = .error msg)
    (indent : GoString) (fuel : Nat) :
    kidsChunks e fuel w it indent (a ++ n :: b)
      = (kidsChunks e fuel w it indent a).bind (fun oa =>
          (kidsChunks e fuel w it indent b).map (fun ob => oa ++ Emit.failure msg :: ob)) ∧
    kidsChunks e fuel w it indent (a ++ b)
      = (kidsChunks e fuel w it indent a).bind (fun oa =>
          (kidsChunks e fuel w it indent b).map (fun ob => oa ++ ob)) := by
  cases fuel with
  | zero => exact ⟨rfl, rfl⟩
  | succ k =>
    constructor
    · rw [kidsChunks_eq e Inv f hS w hw, kidsChunks_eq e Inv f hS w hw,
        kidsChunks_eq e Inv f hS w hw, renderKids_append, renderKids_failed _ _ _ n msg b hn]
      cases renderKids f (fun cit ind => render f k cit ind) indent a with
      | none => rfl
      | some oa =>
        cases renderKids f (fun cit ind => render f k cit ind) indent b <;> rfl
    · rw [kidsChunks_eq e Inv f hS w hw, kidsChunks_eq e Inv f hS w hw,
        kidsChunks_eq e Inv f hS w hw, renderKids_append]

theorem annThreads_shows : Thread.ShowsAll demoOutcome annThreads [2] := by
  simp only [annThreads, reply, Thread.ShowsAll, Thread.Shows, and_true]
  decide

theorem bobTop_shows : Thread.ShowsAll demoOutcome bobTop [4] := by
  simp only [bobTop, bobThreads, reply, Thread.ShowsAll, Thread.Shows, and_true]
  decide

/-! ## The tree renderer: claims C7, C8 and C9 -/

/-- C7: on a finite tree of records in which every child fetch succeeds (the
threads `ts` below the root, presented by settled outcomes), `printComments`
returns for every fuel above the height of the tree, the authors of the
bracketed tags it writes are the records below the root in depth-first
pre-order with the children in `Kids` order, and there is exactly one tag per
parent-to-child edge. -/
theorem printComments_preorder (e : Env) (Inv : World → Prop)
    (f : Int → Except GoString item) (hS : Settled e Inv f) (w : World) (hw : Inv w)
    (root : item) (ts : List Thread) (hs : Thread.ShowsAll f ts root.Kids)
    (hc : Thread.completeAll ts = true) (indent : GoString) (fuel : Nat)
    (hfuel : Thread.heightAll ts < fuel) :
    ∃ o w1, printComments e fuel w root indent = some (o, w1) ∧
      o.filterMap Emit.tagged = (Thread.walkAll 1 ts).map (fun r => r.2.By) ∧
      (o.filterMap Emit.tagged).length = Thread.edgesAll ts := by
  obtain ⟨w1, _, hrun⟩ := printComments_of_shows e Inv f hS w hw root ts hs indent fuel hfuel
  have htag : (Emit.header root.Title :: Thread.emitsAll indent ts).filterMap Emit.tagged
      = (Thread.walkAll 1 ts).map (fun r => r.2.By) := by
    rw [List.filterMap_cons]
    simp only [Emit.tagged]
    exact tagged_emitsAll 1 ts indent
  refine ⟨_, w1, hrun, htag, ?_⟩
  rw [htag, List.length_map, walkAll_length 1 ts hc]

/-- C7, witness: comment 4 as the root, with comment 6 (and its kid 8) and
comment 7 below it; the run with fuel 3 returns, and its tags are `cy`, `eve`,
`dan`, one for each of the three edges. -/
theorem printComments_preorder_witness :
    (printComments demoEnv 3 emptyWorld (reply 4 "bob".toList [6, 7]) []).map
        (fun r => r.1.filterMap Emit.tagged)
      = some ["cy".toList, "eve".toList, "dan".toList] ∧
    Thread.edgesAll bobThreads = 3 := by
  obtain ⟨o, w1, hrun, htag, _⟩ :=
    printComments_preorder demoEnv EmptyCache demoOutcome demoEnv_settled emptyWorld
      emptyWorld_emptyCache (reply 4 "bob".toList [6, 7]) bobThreads bobThreads_shows
      (by decide) [] 3 (by decide)
  refine ⟨?_, by decide⟩
  rw [hrun, Option.map_some', htag]
  decide

/-- C8, counterexample: comment 2 rendered at the indent of one tab; the fetch
of its kid 5 fails, and the error line starts with `cannot fetch`, not with
the tab. -/
theorem failure_line_not_indented :
    (printComments demoEnv 1 emptyWorld (reply 2 "ann".toList [5]) ['\t']).map (fun r => r.1)
      = some [.header [], .failure unreachable5] ∧
    ((Emit.failure unreachable5).bytes demoEnv).take 13 = "cannot fetch ".toList ∧
    ¬ (['\t'] <+: (Emit.failure unreachable5).bytes demoEnv) := by
  decide

/-- C8, as amended: on settled outcomes, for every record, every indent and
every child ID whose fetch or decode fails, the chunks written after the
header are those of the earlier siblings, then exactly one error line, then
those of the later siblings, and without the failed child they are those of
the earlier siblings followed by the same chunks of the later siblings.  When
the threads below the siblings are finite the run returns, for every fuel
above their heights, with exactly these chunks.  The error line is the message
of the error and a newline, with no indent: it starts with `cannot fetch` or
`cannnot unmarshal body for` and the locator of the child. -/
theorem printComments_failed_child (e : Env) (Inv : World → Prop)
    (f : Int → Except GoString item) (hS : Settled e Inv f) (w : World) (hw : Inv w)
    (it : item) (a b : List Int) (n : Int) (msg : GoString) (hn : f n = .error msg)
    (indent : GoString) (fuel : Nat) :
    (∀ ta tb : List Thread, Thread.ShowsAll f ta a → Thread.ShowsAll f tb b →
      Thread.heightAll ta < fuel → Thread.heightAll tb < fuel →
        kidsChunks e fuel w it indent (a ++ n :: b)
          = some (Thread.emitsAll indent ta ++ Emit.failure msg :: Thread.emitsAll indent tb) ∧
        kidsChunks e fuel w it indent (a ++ b)
          = some (Thread.emitsAll indent ta ++ Thread.emitsAll indent tb)) ∧
    kidsChunks e fuel w it indent (a ++ n :: b)
      = (kidsChunks e fuel w it indent a).bind (fun oa =>
          (kidsChunks e fuel w it indent b).map (fun ob => oa ++ Emit.failure msg :: ob)) ∧
    kidsChunks e fuel w it indent (a ++ b)
      = (kidsChunks e fuel w it indent a).bind (fun oa =>
          (kidsChunks e fuel w it indent b).map (fun ob => oa ++ ob)) ∧
    (Emit.failure msg).bytes e = msg ++ ['\n'] ∧
    (("cannot fetch ".toList ++ itemURL n ++ ": ".toList) <+: msg ∨
      ("cannnot unmarshal body for ".toList ++ itemURL n ++ ": ".toList) <+: msg) := by
  have hshape : ("cannot fetch ".toList ++ itemURL n ++ ": ".toList) <+: msg ∨
      ("cannnot unmarshal body for ".toList ++ itemURL n ++ ": ".toList) <+: msg := by
    have hg := hS.gives w n hw
    rw [hn] at hg
    exact unmarshal_error_shape e e.decodeItem w (itemURL n) true msg hg
  have heq := kidsChunks_failed e Inv f hS w hw it a b n msg hn indent fuel
  refine ⟨?_, heq.1, heq.2, rfl, hshape⟩
  intro ta tb hta htb hfa hfb
  have ha := kidsChunks_of_shows e Inv f hS w hw it a ta hta indent fuel hfa
  have hb := kidsChunks_of_shows e Inv f hS w hw it b tb htb indent fuel hfb
  rw [heq.1, heq.2, ha, hb]
  exact ⟨rfl, rfl⟩

/-- C8, witness: the story `demoStory` with kids 2, 3 and 4, where the body of
record 3 does not decode; the run with fuel 4 returns the chunks of comment 2,
one error line, the chunks of comment 4. -/
theorem printComments_failed_child_witness :
    kidsChunks demoEnv 4 emptyWorld demoStory [] ([2] ++ 3 :: [4])
      = some (Thread.emitsAll [] annThreads ++
          Emit.failure undecodable3 :: Thread.emitsAll [] bobTop) ∧
    kidsChunks demoEnv 4 emptyWorld demoStory [] ([2] ++ [4])
      = some (Thread.emitsAll [] annThreads ++ Thread.emitsAll [] bobTop) ∧
    (Emit.failure undecodable3).bytes demoEnv = undecodable3 ++ ['\n'] :=
  have h := printComments_failed_child demoEnv EmptyCache demoOutcome demoEnv_settled
    emptyWorld emptyWorld_emptyCache demoStory [2] [4] 3 undecodable3 (by decide) [] 4
  have h1 := h.1 annThreads bobTop annThreads_shows bobTop_shows (by decide) (by decide)
  ⟨h1.1, h1.2, h.2.2.2.1⟩

/-- C9, counterexample: in the output of `printComments(demoStory, "")` the
tag of the first child of the root is written at the empty indent, which is
no deeper than the header line of the root. -/
theorem root_kids_not_indented :
    (printComments demoEnv 4 emptyWorld demoStory []).map (fun r => r.1.take 2)
      = some [.header "Foo".toList, .author [] "ann".toList] ∧
    (Emit.header "Foo".toList).bytes demoEnv = "\x1b[33mFoo\x1b[0m\n\n".toList ∧
    (Emit.author [] "ann".toList).bytes demoEnv = "\x1b[33m[ann]\x1b[0m\n".toList ∧
    ¬ ((Emit.header "Foo".toList).indent.length
        < (Emit.author [] "ann".toList).indent.length) := by
  decide

/-- C9, as amended: in the output of `printComments(root, indent)` (the call
of `main` has the empty indent) the header line of the root comes first and
has no indent; then, error lines apart, come the records below the root in
depth-first order, and a record at depth `d` (the children of the root are at
depth 1) has its author tag and its text block written at the indent followed
by `d - 1` tabs, followed by its own header line, which has no indent; an
error line has no indent either.  So the tag and text of the children of a
rendered comment are indented one tab more than those of the comment, and
those of the children of the root are written at the indent of the call
itself. -/
theorem printComments_indents (e : Env) (Inv : World → Prop)
    (f : Int → Except GoString item) (hS : Settled e Inv f) (w : World) (hw : Inv w)
    (root : item) (ts : List Thread) (hs : Thread.ShowsAll f ts root.Kids)
    (indent : GoString) (fuel : Nat) (hfuel : Thread.heightAll ts < fuel) :
    ∃ o w1, printComments e fuel w root indent = some (o, w1) ∧
      o.head? = some (.header root.Title) ∧
      o.filter (fun c => !c.isFailure)
        = .header root.Title :: (Thread.walkAll 1 ts).flatMap (recordChunks indent 1) ∧
      (∀ c ∈ o, c.isFailure = true → c.indent = []) ∧
      o.filterMap Emit.tagIndent
        = (Thread.walkAll 1 ts).map (fun r => indent ++ List.replicate (r.1 - 1) '\t') := by
  obtain ⟨w1, _, hrun⟩ := printComments_of_shows e Inv f hS w hw root ts hs indent fuel hfuel
  refine ⟨_, w1, hrun, rfl, ?_, ?_, ?_⟩
  · rw [List.filter_cons]
    simp only [isFailure_header, Bool.not_false, if_true]
    rw [filter_emitsAll 1 ts indent]
  · intro c _ hc
    cases c with
    | failure msg => rfl
    | header t => exact Bool.noConfusion hc
    | author i who => exact Bool.noConfusion hc
    | body i t => exact Bool.noConfusion hc
  · rw [List.filterMap_cons]
    simp only [Emit.tagIndent]
    exact tagIndent_emitsAll 1 ts indent

/-- C9, witness: `demoStory` at the empty indent; `ann` and `bob` at depth 1
have no indent, `cy` and `dan` at depth 2 one tab, `eve` at depth 3 two; the
text blocks follow the tags and the headers have no indent. -/
theorem printComments_indents_witness :
    (printComments demoEnv 4 emptyWorld demoStory []).map
        (fun r => (r.1.head?, r.1.filterMap Emit.tagIndent,
          r.1.filter (fun c => !c.isFailure)))
      = some (some (.header "Foo".toList), [[], [], ['\t'], ['\t', '\t'], ['\t']],
          [.header "Foo".toList,
            .author [] "ann".toList, .body [] "hi".toList, .header [],
            .author [] "bob".toList, .body [] "hi".toList, .header [],
            .author ['\t'] "cy".toList, .body ['\t'] "hi".toList, .header [],
            .author ['\t', '\t'] "eve".toList, .body ['\t', '\t'] "hi".toList, .header [],
            .author ['\t'] "dan".toList, .body ['\t'] "hi".toList, .header []]) := by
  obtain ⟨o, w1, hrun, hhead, hfilter, _, htag⟩ :=
    printComments_indents demoEnv EmptyCache demoOutcome demoEnv_settled emptyWorld
      emptyWorld_emptyCache demoStory demoThreads demoThreads_shows [] 4 (by decide)
  rw [hrun, Option.map_some', hhead, htag, hfilter]
  decide

end Ycnews
